import Mathlib

/-!
Event dispatch of `src/misc/lv_event.c`.

A shallow embedding of the listener registry and of `lv_event_send`, followed by
the properties of the dispatch pass and of the deferred compaction.

Conventions of the embedding.

* A function pointer is a number (`Option Nat`, `none` being `NULL`); what the
  function does is given by an environment `cbs : Nat → lv_event_cb_t`.
* A callback receives the memory it can reach, the registry being traversed and
  the event record, and returns the memory it leaves (`none`: the callback ran
  into undefined behaviour).
* A pointer into the listener array is the index of the element (`none` being
  `NULL`); reading through `NULL` is undefined behaviour, result `none`.
* `lv_event_send` also returns the list of callback invocations it made itself,
  in order.  This list is ghost state, the code does not have it.
* `LV_EVENT_ALL` and `LV_EVENT_PREPROCESS` are declared in a header that is not
  part of the sources; every definition that needs them takes them as arguments.
* The dispatch stack lives in `lv_global_t`: the head pointer, the category
  counter, and the memory of the event records by address.  The loop of
  `_lv_event_mark_deleted` follows `prev` links and takes an iteration bound.
-/

set_option autoImplicit false

namespace LvEvent

/-! ## Data model -/

/-- Result code of `lv_event_send`. -/
inductive lv_result_t where
  | LV_RESULT_INVALID
  | LV_RESULT_OK
  deriving DecidableEq, Repr

export lv_result_t (LV_RESULT_INVALID LV_RESULT_OK)

/-- Listener entry `lv_event_dsc_t`: callback (function pointer, `none` is `NULL`),
filter and user data. -/
structure lv_event_dsc_t where
  cb : Option Nat
  filter : Nat
  user_data : Nat
  deriving DecidableEq, Repr

/-- Modelled from the spec: the registry flags, "bitset{TRAVERSING, HAS_REMOVED,
ALL_REMOVED}".  The header declaring the `LV_EVENT_FLAG_*` masks and the helpers
`lv_event_has_flag`, `lv_event_add_flag`, `lv_event_remove_flag` is missing from
the sources; a value of this type is a set of flag bits, one field per bit. -/
structure lv_event_flag_t where
  traversing : Bool
  removed : Bool
  all_removed : Bool
  deriving DecidableEq, Repr

/-- Modelled from the spec: the mask of the flag TRAVERSING. -/
def LV_EVENT_FLAG_TRAVERSING : lv_event_flag_t := ⟨true, false, false⟩

/-- Modelled from the spec: the mask of the flag HAS_REMOVED. -/
def LV_EVENT_FLAG_REMOVED : lv_event_flag_t := ⟨false, true, false⟩

/-- Modelled from the spec: the mask of the flag ALL_REMOVED. -/
def LV_EVENT_FLAG_ALL_REMOVED : lv_event_flag_t := ⟨false, false, true⟩

/-- Bitwise or of two flag sets (`a | b`). -/
def lv_event_flag_t.or (a b : lv_event_flag_t) : lv_event_flag_t :=
  ⟨a.traversing || b.traversing, a.removed || b.removed, a.all_removed || b.all_removed⟩

/-- The value `0` assigned to `list->flags`. -/
def lv_event_flag_t.zero : lv_event_flag_t := ⟨false, false, false⟩

/-- Listener registry `lv_event_list_t`: the array of entries (the growable array
is consumed as an ordered sequence) and the flags. -/
structure lv_event_list_t where
  array : List lv_event_dsc_t
  flags : lv_event_flag_t
  deriving DecidableEq, Repr

/-- Event record `lv_event_t`.  Targets, parameter and user data are opaque
addresses; `prev` is the address of the enclosing record (`none` is `NULL`); the
three one-bit fields are booleans. -/
structure lv_event_t where
  current_target : Nat
  original_target : Nat
  code : Nat
  user_data : Nat
  param : Nat
  prev : Option Nat
  deleted : Bool
  stop_processing : Bool
  stop_bubbling : Bool
  deriving DecidableEq, Repr

/-- Memory a callback can reach during a pass: the registry that is being
traversed and the event record. -/
structure lv_world_t where
  list : lv_event_list_t
  e : lv_event_t
  deriving DecidableEq, Repr

/-- Behaviour of a callback `lv_event_cb_t`: the memory it leaves, `none` when it
runs into undefined behaviour. -/
abbrev lv_event_cb_t := lv_world_t → Option lv_world_t

/-- One callback invocation made by `lv_event_send` (ghost record): the index of
the entry, the function called, the event as passed and the event as it was when
the callback returned. -/
structure lv_event_call_t where
  index : Nat
  cb : Nat
  e : lv_event_t
  ret : lv_event_t
  deriving DecidableEq, Repr

/-! ## The array container and the flag helpers -/

/-- Modelled from the spec: `lv_array_size`, the number of entries of the
sequence (the container is not part of the sources). -/
def lv_array_size (array : List lv_event_dsc_t) : Nat := array.length

/-- Modelled from the spec: `lv_array_at`, index access of the container.  The
result is a pointer to the element, that is its index, and `NULL` (`none`) when
the index is not below the size. -/
def lv_array_at (array : List lv_event_dsc_t) (index : Nat) : Option Nat :=
  if index < lv_array_size array then some index else none

/-- Read through a pointer to an entry; `none` for a `NULL` pointer. -/
def lv_dsc_read (array : List lv_event_dsc_t) (dsc : Option Nat) : Option lv_event_dsc_t :=
  match dsc with
  | none => none
  | some p => array[p]?

/-- Modelled from the spec: `lv_array_push_back`, append of the container. -/
def lv_array_push_back (array : List lv_event_dsc_t) (dsc : lv_event_dsc_t) :
    List lv_event_dsc_t :=
  array ++ [dsc]

/-- Modelled from the spec: `lv_array_init`, "(re)initializes storage": the
sequence is empty afterwards. -/
def lv_array_init (_array : List lv_event_dsc_t) : List lv_event_dsc_t := []

/-- Modelled from the spec: `lv_array_deinit`, "release all storage and reset the
registry to empty". -/
def lv_array_deinit (_array : List lv_event_dsc_t) : List lv_event_dsc_t := []

/-- Modelled from the spec: `lv_array_resize`, "truncate storage to length i". -/
def lv_array_resize (array : List lv_event_dsc_t) (new_capacity : Nat) :
    List lv_event_dsc_t :=
  array.take new_capacity

/-- Modelled from the spec: `lv_event_has_flag`, whether a bit of the mask is set
in the registry flags. -/
def lv_event_has_flag (list : lv_event_list_t) (flag : lv_event_flag_t) : Bool :=
  (list.flags.traversing && flag.traversing) || (list.flags.removed && flag.removed) ||
    (list.flags.all_removed && flag.all_removed)

/-- Modelled from the spec: `lv_event_add_flag`, sets the bits of the mask. -/
def lv_event_add_flag (list : lv_event_list_t) (flag : lv_event_flag_t) : lv_event_list_t :=
  { list with flags := list.flags.or flag }

/-- Modelled from the spec: `lv_event_remove_flag`, clears the bits of the mask. -/
def lv_event_remove_flag (list : lv_event_list_t) (flag : lv_event_flag_t) : lv_event_list_t :=
  { list with flags := ⟨list.flags.traversing && !flag.traversing,
                        list.flags.removed && !flag.removed,
                        list.flags.all_removed && !flag.all_removed⟩ }

/-! ## Registry operations -/

/-- `lv_event_add`: builds the entry, re-initialises the array and zeroes the
flags when the array is empty, then appends. -/
def lv_event_add (list : lv_event_list_t) (cb : Option Nat) (filter : Nat) (user_data : Nat) :
    lv_event_list_t :=
  let dsc : lv_event_dsc_t := { cb := cb, filter := filter, user_data := user_data }
  let list1 : lv_event_list_t :=
    if lv_array_size list.array = 0 then
      { array := lv_array_init list.array, flags := lv_event_flag_t.zero }
    else list
  { list1 with array := lv_array_push_back list1.array dsc }

/-- `lv_event_get_count`. -/
def lv_event_get_count (list : lv_event_list_t) : Nat := lv_array_size list.array

/-- `lv_event_get_dsc`: pointer to the entry, `NULL` past the end. -/
def lv_event_get_dsc (list : lv_event_list_t) (index : Nat) : Option Nat :=
  lv_array_at list.array index

/-- `lv_event_remove`: `dsc->cb = NULL` through the pointer returned by
`lv_array_at`, without a range check: for an index that is not below the count
the pointer is `NULL` and the write is undefined behaviour (`none`).  Otherwise
the flag HAS_REMOVED is set and `true` returned. -/
def lv_event_remove (list : lv_event_list_t) (index : Nat) : Option (Bool × lv_event_list_t) :=
  match lv_array_at list.array index with
  | none => none
  | some p =>
    match lv_dsc_read list.array (some p) with
    | none => none
    | some d =>
      let list1 : lv_event_list_t := { list with array := list.array.set p { d with cb := none } }
      some (true, lv_event_add_flag list1 LV_EVENT_FLAG_REMOVED)

/-- Loop of `lv_event_remove_all`: `n` iterations are left, `i` is the index. -/
def lv_event_remove_all_loop :
    Nat → Nat → List lv_event_dsc_t → Option (List lv_event_dsc_t)
  | 0, _, array => some array
  | n + 1, i, array =>
    match lv_dsc_read array (lv_array_at array i) with
    | none => none
    | some d => lv_event_remove_all_loop n (i + 1) (array.set i { d with cb := none })

/-- `lv_event_remove_all`: sets ALL_REMOVED and HAS_REMOVED, then clears the
callback of every entry in place. -/
def lv_event_remove_all (list : lv_event_list_t) : Option lv_event_list_t :=
  let list1 := lv_event_add_flag list (LV_EVENT_FLAG_ALL_REMOVED.or LV_EVENT_FLAG_REMOVED)
  let size := lv_array_size list1.array
  match lv_event_remove_all_loop size 0 list1.array with
  | none => none
  | some array => some { list1 with array := array }

/-- `lv_event_stop_bubbling`. -/
def lv_event_stop_bubbling (e : lv_event_t) : lv_event_t := { e with stop_bubbling := true }

/-- `lv_event_stop_processing`. -/
def lv_event_stop_processing (e : lv_event_t) : lv_event_t := { e with stop_processing := true }

/-! ## Dispatch -/

/-- Phase bit of an entry: `(dsc->filter & LV_EVENT_PREPROCESS) != 0`. -/
def lv_dsc_is_preprocessed (PREPROCESS : Nat) (dsc : lv_event_dsc_t) : Bool :=
  decide (dsc.filter &&& PREPROCESS ≠ 0)

/-- Category of an entry: `dsc->filter & ~LV_EVENT_PREPROCESS`, the filter with
the bits of the mask cleared. -/
def lv_dsc_filter_code (PREPROCESS : Nat) (dsc : lv_event_dsc_t) : Nat :=
  dsc.filter ^^^ (dsc.filter &&& PREPROCESS)

/-- Dispatch loop of `lv_event_send` (`for(i = 0; i < size; i++)` with `size`
read once before the loop): `n` is the number of iterations left, `size - i`.
The result is `none` on undefined behaviour, else whether the loop left the
function by `return LV_RESULT_INVALID`, the memory and the invocations made. -/
def lv_event_send_loop (ALL PREPROCESS : Nat) (cbs : Nat → lv_event_cb_t) (preprocess : Bool) :
    Nat → Nat → lv_world_t → Option (Bool × lv_world_t × List lv_event_call_t)
  | 0, _, w => some (false, w, [])
  | n + 1, i, w =>
    match lv_dsc_read w.list.array (lv_array_at w.list.array i) with
    | none => none
    | some dsc =>
      match dsc.cb with
      | none => lv_event_send_loop ALL PREPROCESS cbs preprocess n (i + 1) w
      | some f =>
        if lv_dsc_is_preprocessed PREPROCESS dsc != preprocess then
          lv_event_send_loop ALL PREPROCESS cbs preprocess n (i + 1) w
        else if lv_dsc_filter_code PREPROCESS dsc = ALL ∨
            lv_dsc_filter_code PREPROCESS dsc = w.e.code then
          let e1 : lv_event_t := { w.e with user_data := dsc.user_data }
          match cbs f { w with e := e1 } with
          | none => none
          | some w1 =>
            let call : lv_event_call_t := { index := i, cb := f, e := e1, ret := w1.e }
            if w1.e.stop_processing then
              (lv_event_send_loop ALL PREPROCESS cbs preprocess n (i + 1) w1).map
                fun r => (r.1, r.2.1, call :: r.2.2)
            else if w1.e.deleted then
              some (true, w1, [call])
            else
              (lv_event_send_loop ALL PREPROCESS cbs preprocess n (i + 1) w1).map
                fun r => (r.1, r.2.1, call :: r.2.2)
        else lv_event_send_loop ALL PREPROCESS cbs preprocess n (i + 1) w

/-- First loop of the compaction (`for(i = 0; i < size; ++i)`): looks for the
first entry with an empty callback.  `n` is the number of iterations left; the
result is the final `i` and the final pointer `dsc_null`. -/
def lv_event_send_scan (array : List lv_event_dsc_t) :
    Nat → Nat → Option Nat → Option (Nat × Option Nat)
  | 0, i, dsc_null => some (i, dsc_null)
  | n + 1, i, _ =>
    let dsc_null := lv_array_at array i
    match lv_dsc_read array dsc_null with
    | none => none
    | some d =>
      if d.cb = none then some (i, dsc_null)
      else lv_event_send_scan array n (i + 1) dsc_null

/-- Second loop of the compaction (`for(j = i + 1; j < size; j++)`): moves every
entry with a callback into the slot `dsc_null` points to.  `n` is the number of
iterations left; the result is the array and the final `i`. -/
def lv_event_send_shift :
    Nat → Nat → List lv_event_dsc_t → Nat → Option Nat → Option (List lv_event_dsc_t × Nat)
  | 0, _, array, i, _ => some (array, i)
  | n + 1, j, array, i, dsc_null =>
    let dsc := lv_array_at array j
    match lv_dsc_read array dsc with
    | none => none
    | some d =>
      if d.cb = none then lv_event_send_shift n (j + 1) array i dsc_null
      else
        match lv_dsc_read array dsc_null with
        | none => none
        | some dn =>
          if dn.cb = none then
            match dsc_null with
            | none => none
            | some pn =>
              let array1 := array.set pn d
              match lv_dsc_read array1 dsc with
              | none => none
              | some d1 =>
                let array2 := array1.set j { d1 with cb := none }
                lv_event_send_shift n (j + 1) array2 (i + 1) (lv_array_at array2 (i + 1))
          else lv_event_send_shift n (j + 1) array i dsc_null

/-- Partial compaction of `lv_event_send` (the two loops and the truncation);
`j = i + 1` is computed in `uint32_t`. -/
def lv_event_send_compact (array : List lv_event_dsc_t) : Option (List lv_event_dsc_t) :=
  let size := lv_array_size array
  match lv_event_send_scan array size 0 none with
  | none => none
  | some (i, dsc_null) =>
    let j := (i + 1) % 2 ^ 32
    match lv_event_send_shift (size - j) j array i dsc_null with
    | none => none
    | some (array1, i1) =>
      if i1 ≠ size then some (lv_array_resize array1 i1) else some array1

/-- Result of a call of `lv_event_send`: the result code, the registry and the
event as the call leaves them, and the invocations the call made. -/
structure lv_event_send_t where
  res : lv_result_t
  list : Option lv_event_list_t
  e : lv_event_t
  calls : List lv_event_call_t
  deriving DecidableEq, Repr

/-- Body of `lv_event_send` after the `NULL` check. -/
def lv_event_send_body (ALL PREPROCESS : Nat) (cbs : Nat → lv_event_cb_t)
    (list : lv_event_list_t) (e : lv_event_t) (preprocess : Bool) : Option lv_event_send_t :=
  let is_traversing := lv_event_has_flag list LV_EVENT_FLAG_TRAVERSING
  let list0 := lv_event_add_flag list LV_EVENT_FLAG_TRAVERSING
  let size := lv_array_size list0.array
  match lv_event_send_loop ALL PREPROCESS cbs preprocess size 0 { list := list0, e := e } with
  | none => none
  | some (true, w, calls) =>
    some { res := LV_RESULT_INVALID, list := some w.list, e := w.e, calls := calls }
  | some (false, w, calls) =>
    let list1 := if !is_traversing then lv_event_remove_flag w.list LV_EVENT_FLAG_TRAVERSING
                 else w.list
    if !is_traversing && lv_event_has_flag list1 LV_EVENT_FLAG_REMOVED then
      if lv_event_has_flag list1 LV_EVENT_FLAG_ALL_REMOVED then
        some { res := LV_RESULT_OK,
               list := some { list1 with array := lv_array_deinit list1.array },
               e := w.e, calls := calls }
      else
        match lv_event_send_compact list1.array with
        | none => none
        | some array =>
          let list2 := lv_event_remove_flag { list1 with array := array } LV_EVENT_FLAG_REMOVED
          some { res := LV_RESULT_OK, list := some list2, e := w.e, calls := calls }
    else
      some { res := LV_RESULT_OK, list := some list1, e := w.e, calls := calls }

/-- `lv_event_send`: `list` is `none` for a `NULL` registry. -/
def lv_event_send (ALL PREPROCESS : Nat) (cbs : Nat → lv_event_cb_t)
    (list : Option lv_event_list_t) (e : lv_event_t) (preprocess : Bool) :
    Option lv_event_send_t :=
  match list with
  | none => some { res := LV_RESULT_OK, list := none, e := e, calls := [] }
  | some l => lv_event_send_body ALL PREPROCESS cbs l e preprocess

/-! ## The dispatch stack and the category counter -/

/-- The global state the file uses through the macros `event_head` and
`event_last_id` (`LV_GLOBAL_DEFAULT()->event_header` and
`LV_GLOBAL_DEFAULT()->event_last_register_id`), together with the memory that
holds the event records: `events a` is the record at address `a`.  A pointer to
an event record is an address, `none` being `NULL`. -/
structure lv_global_t where
  event_header : Option Nat
  event_last_register_id : Nat
  events : Nat → lv_event_t

/-- `_lv_event_push`: `e->prev = event_head; event_head = e;`.  Writing through
a `NULL` pointer is undefined behaviour (`none`). -/
def _lv_event_push (g : lv_global_t) (e : Option Nat) : Option lv_global_t :=
  match e with
  | none => none
  | some p =>
    some { g with
      events := fun a => if a = p then { g.events p with prev := g.event_header }
                         else g.events a,
      event_header := some p }

/-- `_lv_event_pop`: `event_head = e->prev;`. -/
def _lv_event_pop (g : lv_global_t) (e : Option Nat) : Option lv_global_t :=
  match e with
  | none => none
  | some p => some { g with event_header := (g.events p).prev }

/-- `lv_event_register_id`: `event_last_id++; return event_last_id;` on a
`uint32_t` counter.  The result is the returned identifier and the new state. -/
def lv_event_register_id (g : lv_global_t) : Nat × lv_global_t :=
  let g1 := { g with event_last_register_id := (g.event_last_register_id + 1) % 2 ^ 32 }
  (g1.event_last_register_id, g1)

/-- Loop of `_lv_event_mark_deleted` (`while(e)`), on the memory of the event
records.  The loop follows `prev` links and need not end on a cyclic chain: the
first argument bounds the number of iterations, and the result is `none` when
the bound is reached before `e` is `NULL`. -/
def _lv_event_mark_deleted_loop (target : Nat) :
    Nat → (Nat → lv_event_t) → Option Nat → Option (Nat → lv_event_t)
  | _, events, none => some events
  | 0, _, some _ => none
  | fuel + 1, events, some p =>
    let events1 : Nat → lv_event_t :=
      if (events p).original_target = target ∨ (events p).current_target = target then
        fun a => if a = p then { events p with deleted := true } else events a
      else events
    _lv_event_mark_deleted_loop target fuel events1 (events1 p).prev

/-- `_lv_event_mark_deleted`: walks the chain from `event_head`. -/
def _lv_event_mark_deleted (fuel : Nat) (g : lv_global_t) (target : Nat) :
    Option lv_global_t :=
  (_lv_event_mark_deleted_loop target fuel g.events g.event_header).map
    fun events => { g with events := events }

/-! ## Specification-side definitions -/

/-- Filter test in the words of the specification: the entry has a callback, its
phase bit equals the requested phase, and its category is the wildcard or the
category of the event. -/
def lv_dsc_fires (ALL PREPROCESS : Nat) (dsc : lv_event_dsc_t) (code : Nat)
    (preprocess : Bool) : Bool :=
  dsc.cb.isSome && (lv_dsc_is_preprocessed PREPROCESS dsc == preprocess) &&
    (decide (lv_dsc_filter_code PREPROCESS dsc = ALL) ||
      decide (lv_dsc_filter_code PREPROCESS dsc = code))

/-- The event a callback receives: the current event with `user_data` bound to
the user data of the entry. -/
def lv_event_bind (e : lv_event_t) (dsc : lv_event_dsc_t) : lv_event_t :=
  { e with user_data := dsc.user_data }

/-- Whether the loop leaves the function after a callback returned with event
`e`: `stop_processing` clear and `deleted` set. -/
def lv_event_aborts (e : lv_event_t) : Bool := !e.stop_processing && e.deleted

/-- A callback that returns and does not modify the registry. -/
def lv_cb_keeps_registry (g : lv_event_cb_t) : Prop :=
  ∀ w, ∃ w1, g w = some w1 ∧ w1.list = w.list

/-- A callback that leaves the flags of the event untouched. -/
def lv_cb_keeps_flags (g : lv_event_cb_t) : Prop :=
  ∀ w w1, g w = some w1 →
    w1.e.deleted = w.e.deleted ∧ w1.e.stop_processing = w.e.stop_processing ∧
      w1.e.stop_bubbling = w.e.stop_bubbling

/-- A callback that leaves the category of the event untouched. -/
def lv_cb_keeps_code (g : lv_event_cb_t) : Prop :=
  ∀ w w1, g w = some w1 → w1.e.code = w.e.code

/-- A callback that only observes: it returns, and leaves the registry, the
flags and the category of the event untouched. -/
def lv_cb_passive (g : lv_event_cb_t) : Prop :=
  lv_cb_keeps_registry g ∧ lv_cb_keeps_flags g ∧ lv_cb_keeps_code g

/-- Invocations the specification expects from the entries `ds`, the first of
which has index `i`: index, function and bound user data of every entry that
passes the filter test, in order. -/
def lv_fired_from (ALL PREPROCESS : Nat) (code : Nat) (preprocess : Bool) :
    Nat → List lv_event_dsc_t → List (Nat × Nat × Nat)
  | _, [] => []
  | i, d :: ds =>
    match d.cb with
    | some f =>
      if lv_dsc_fires ALL PREPROCESS d code preprocess then
        (i, f, d.user_data) :: lv_fired_from ALL PREPROCESS code preprocess (i + 1) ds
      else lv_fired_from ALL PREPROCESS code preprocess (i + 1) ds
    | none => lv_fired_from ALL PREPROCESS code preprocess (i + 1) ds

/-- Summary of an invocation: index of the entry, function called, user data
the event carried. -/
def lv_event_call_t.key (c : lv_event_call_t) : Nat × Nat × Nat :=
  (c.index, c.cb, c.e.user_data)

/-- Successive calls of `lv_event_add`, one per listener `(cb, filter,
user_data)` of `ls`, in the order of `ls`. -/
def lv_event_add_all (list : lv_event_list_t) (ls : List (Nat × Nat × Nat)) :
    lv_event_list_t :=
  ls.foldl (fun l x => lv_event_add l (some x.1) x.2.1 x.2.2) list

/-- The entry `lv_event_add` builds for the listener `(cb, filter, user_data)`. -/
def lv_dsc_of (x : Nat × Nat × Nat) : lv_event_dsc_t :=
  { cb := some x.1, filter := x.2.1, user_data := x.2.2 }

/-- The entries of `ds` that have a callback, the first entry having index `i`:
index, function and user data, in order. -/
def lv_listing : Nat → List lv_event_dsc_t → List (Nat × Nat × Nat)
  | _, [] => []
  | i, d :: ds =>
    match d.cb with
    | some f => (i, f, d.user_data) :: lv_listing (i + 1) ds
    | none => lv_listing (i + 1) ds

/-- The entry at index `i` of the registry is a tombstone: it is there and its
callback is empty. -/
def lv_dsc_tomb_at (list : lv_event_list_t) (i : Nat) : Prop :=
  ∃ d, list.array[i]? = some d ∧ d.cb = none

/-- The function `f0` is the callback of no entry of the registry (whose count
fits `uint32_t`). -/
def lv_cb_unregistered (f0 : Nat) (list : lv_event_list_t) : Prop :=
  (∀ d ∈ list.array, d.cb ≠ some f0) ∧ lv_event_get_count list < 2 ^ 32

/-- The `prev` chain that starts at `head` visits exactly the addresses `ps`, in
order, and ends with `NULL`: a finite chain. -/
def lv_event_chain (events : Nat → lv_event_t) : List Nat → Option Nat → Prop
  | [], head => head = none
  | p :: ps, head => head = some p ∧ lv_event_chain events ps (events p).prev

/-- A properly nested sequence of paired calls: nothing, or `_lv_event_push(e)`,
a nested sequence, `_lv_event_pop(e)`, and a sequence after it. -/
inductive lv_event_nest where
  | done : lv_event_nest
  | scope (e : Nat) (inner rest : lv_event_nest) : lv_event_nest

/-- Runs the calls of a nested sequence in order. -/
def lv_event_nest.run : lv_event_nest → lv_global_t → Option lv_global_t
  | .done, g => some g
  | .scope e inner rest, g =>
    match _lv_event_push g (some e) with
    | none => none
    | some g1 =>
      match inner.run g1 with
      | none => none
      | some g2 =>
        match _lv_event_pop g2 (some e) with
        | none => none
        | some g3 => rest.run g3

/-- The addresses of the records a nested sequence pushes. -/
def lv_event_nest.pushed : lv_event_nest → List Nat
  | .done => []
  | .scope e inner rest => e :: (inner.pushed ++ rest.pushed)

/-- Every record is a record of its own: none is pushed again between its push
and its pop. -/
def lv_event_nest.fresh : lv_event_nest → Prop
  | .done => True
  | .scope e inner rest => e ∉ inner.pushed ∧ inner.fresh ∧ rest.fresh

/-- As many successive calls of `lv_event_register_id` as the first argument
says: the identifiers returned, in order, and the state left. -/
def lv_event_register_ids : Nat → lv_global_t → List Nat × lv_global_t
  | 0, g => ([], g)
  | k + 1, g =>
    let r := lv_event_register_id g
    let rs := lv_event_register_ids k r.2
    (r.1 :: rs.1, rs.2)

/-- The record `ev` after `_lv_event_mark_deleted(target)` visited it, in the
words of the specification: `deleted` is the old flag or "a target of the record
is `target`", every other field is as before. -/
def lv_event_marked (target : Nat) (ev : lv_event_t) : lv_event_t :=
  { ev with deleted := ev.deleted ||
      decide (ev.original_target = target ∨ ev.current_target = target) }

/-! ## Sample inputs -/

/-- A fresh event of category 5 with all flags clear. -/
def lv_sample_event : lv_event_t :=
  { current_target := 1, original_target := 1, code := 5, user_data := 0, param := 0,
    prev := none, deleted := false, stop_processing := false, stop_bubbling := false }

/-- Callbacks that do nothing. -/
def lv_sample_idle : Nat → lv_event_cb_t := fun _ w => some w

/-- A registry with two tombstones and HAS_REMOVED set. -/
def lv_sample_holes : lv_event_list_t :=
  { array := [⟨none, 5, 10⟩, ⟨some 1, 5, 11⟩, ⟨none, 0, 12⟩, ⟨some 2, 0, 13⟩],
    flags := ⟨false, true, false⟩ }

/-- A registry of three listeners: category 5, wildcard with the phase bit, and
category 7. -/
def lv_sample_mixed : lv_event_list_t :=
  { array := [⟨some 1, 5, 10⟩, ⟨some 2, 0x8000, 11⟩, ⟨some 3, 7, 12⟩],
    flags := ⟨false, false, false⟩ }

/-- Callbacks of which number 1 appends a listener for function 9 to the
registry; the others do nothing. -/
def lv_sample_adder : Nat → lv_event_cb_t := fun f w =>
  if f = 1 then some { w with list := lv_event_add w.list (some 9) 0 99 } else some w

/-- What `lv_event_send` returns for `lv_sample_mixed` with the callbacks
`lv_sample_adder`, wildcard 0 and phase mask 0x8000, for an event of category 5
in the normal phase: entry 0 is invoked and appends a fourth entry. -/
def lv_sample_appended : lv_event_send_t :=
  { res := LV_RESULT_OK,
    list := some { array := [⟨some 1, 5, 10⟩, ⟨some 2, 0x8000, 11⟩, ⟨some 3, 7, 12⟩,
                             ⟨some 9, 0, 99⟩],
                   flags := ⟨false, false, false⟩ },
    e := { lv_sample_event with user_data := 10 },
    calls := [⟨0, 1, { lv_sample_event with user_data := 10 },
      { lv_sample_event with user_data := 10 }⟩] }

/-- A registry of two wildcard listeners, functions 1 and 2. -/
def lv_sample_pair : lv_event_list_t :=
  { array := [⟨some 1, 0, 10⟩, ⟨some 2, 0, 20⟩], flags := ⟨false, false, false⟩ }

/-- Callbacks of which number 1 calls `lv_event_stop_processing` and reports the
target deleted (what `_lv_event_mark_deleted` does to the event); the others do
nothing. -/
def lv_sample_stop_delete : Nat → lv_event_cb_t := fun f w =>
  if f = 1 then some { w with e := { lv_event_stop_processing w.e with deleted := true } }
  else some w

/-- Callbacks of which number 1 calls `lv_event_stop_processing`; the others do
nothing. -/
def lv_sample_stopper : Nat → lv_event_cb_t := fun f w =>
  if f = 1 then some { w with e := lv_event_stop_processing w.e } else some w

/-- Callbacks of which number 1 reports the target deleted; the others do
nothing. -/
def lv_sample_deleter : Nat → lv_event_cb_t := fun f w =>
  if f = 1 then some { w with e := { w.e with deleted := true } } else some w

/-- A registry of three listeners of category 5, functions 7, 1 and 2. -/
def lv_sample_triple : lv_event_list_t :=
  { array := [⟨some 7, 5, 70⟩, ⟨some 1, 5, 10⟩, ⟨some 2, 5, 20⟩],
    flags := ⟨false, false, false⟩ }

/-- What `lv_event_send` returns for `lv_sample_pair` with the callbacks
`lv_sample_deleter`: the first callback reports the deletion, the pass returns
at once and TRAVERSING stays set. -/
def lv_sample_deleted : lv_event_send_t :=
  { res := LV_RESULT_INVALID,
    list := some { array := [⟨some 1, 0, 10⟩, ⟨some 2, 0, 20⟩],
                   flags := ⟨true, false, false⟩ },
    e := { lv_sample_event with user_data := 10, deleted := true },
    calls := [⟨0, 1, { lv_sample_event with user_data := 10 },
      { lv_sample_event with user_data := 10, deleted := true }⟩] }

/-- What `lv_event_send` returns for `lv_sample_triple` with the callbacks
`lv_sample_stopper`: all three listeners are invoked, the third with
`stop_processing` still set. -/
def lv_sample_stopped : lv_event_send_t :=
  { res := LV_RESULT_OK,
    list := some lv_sample_triple,
    e := { lv_sample_event with user_data := 20, stop_processing := true },
    calls := [⟨0, 7, { lv_sample_event with user_data := 70 },
        { lv_sample_event with user_data := 70 }⟩,
      ⟨1, 1, { lv_sample_event with user_data := 10 },
        { lv_sample_event with user_data := 10, stop_processing := true }⟩,
      ⟨2, 2, { lv_sample_event with user_data := 20, stop_processing := true },
        { lv_sample_event with user_data := 20, stop_processing := true }⟩] }

/-- Callbacks of which `cb2` calls `lv_event_remove_all(list)`, the others do
nothing. -/
def lv_sample_clearer : Nat → lv_event_cb_t := fun f w =>
  if f = 2 then (lv_event_remove_all w.list).map (fun l => { list := l, e := w.e })
  else some w

/-- A dispatch stack of two records: the record at address 4 (targets 40 and 30)
is the head, its `prev` is the record at address 3 (target 30), the outermost
one.  The counter is at 100. -/
def lv_sample_global : lv_global_t :=
  { event_header := some 4,
    event_last_register_id := 100,
    events := fun a =>
      if a = 4 then { lv_sample_event with current_target := 40, original_target := 30,
                                           prev := some 3 }
      else { lv_sample_event with current_target := 30, original_target := 30 } }

/-- The registry after `lv_event_add(cb1)`, `lv_event_remove_all` and
`lv_event_add(cb2)` on an empty registry, no pass in between. -/
def lv_sample_readded : Option lv_event_list_t :=
  (lv_event_remove_all (lv_event_add ⟨[], lv_event_flag_t.zero⟩ (some 1) 0 10)).map
    fun l => lv_event_add l (some 2) 0 20

/-- An event of category 5 that is already marked deleted when the pass starts. -/
def lv_sample_deleted_event : lv_event_t := { lv_sample_event with deleted := true }

/-- Callbacks of which number 1 writes category 6 into the event; the others do
nothing.  None touches the registry or the flags of the event. -/
def lv_sample_recoder : Nat → lv_event_cb_t := fun f w =>
  if f = 1 then some { w with e := { w.e with code := 6 } } else some w

/-- An idle dispatch stack: no record in flight, counter at 100. -/
def lv_sample_idle_stack : lv_global_t :=
  { event_header := none, event_last_register_id := 100, events := fun _ => lv_sample_event }

/-! ## Reading the array -/

theorem lv_dsc_read_at (array : List lv_event_dsc_t) (i : Nat) :
    lv_dsc_read array (lv_array_at array i) = array[i]? := by
  unfold lv_array_at lv_array_size lv_dsc_read
  by_cases h : i < array.length
  · simp [h]
  · simp [h, List.getElem?_eq_none (Nat.le_of_not_lt h)]

theorem lv_array_at_of_get (array : List lv_event_dsc_t) (i : Nat) (d : lv_event_dsc_t)
    (h : array[i]? = some d) : lv_array_at array i = some i := by
  have hlt : i < array.length := by
    by_contra hc
    rw [List.getElem?_eq_none (Nat.le_of_not_lt hc)] at h
    cases h
  simp [lv_array_at, lv_array_size, hlt]

theorem lv_dsc_read_some (array : List lv_event_dsc_t) (p : Nat) :
    lv_dsc_read array (some p) = array[p]? := rfl

theorem lv_array_get_mid (A R : List lv_event_dsc_t) (d : lv_event_dsc_t) :
    (A ++ d :: R)[A.length]? = some d := by
  rw [List.getElem?_append_right (Nat.le_refl _)]
  simp

/-! ## Compaction -/

theorem lv_event_send_scan_step_live (array : List lv_event_dsc_t) (n i : Nat) (p : Option Nat)
    (d : lv_event_dsc_t) (h : array[i]? = some d) (hd : d.cb ≠ none) :
    lv_event_send_scan array (n + 1) i p = lv_event_send_scan array n (i + 1) (some i) := by
  simp only [lv_event_send_scan, lv_array_at_of_get _ _ _ h, lv_dsc_read_some, h, hd, if_false]

theorem lv_event_send_scan_step_tomb (array : List lv_event_dsc_t) (n i : Nat) (p : Option Nat)
    (d : lv_event_dsc_t) (h : array[i]? = some d) (hd : d.cb = none) :
    lv_event_send_scan array (n + 1) i p = some (i, some i) := by
  simp only [lv_event_send_scan, lv_array_at_of_get _ _ _ h, lv_dsc_read_some, h, hd, if_true]

theorem lv_event_send_shift_step_tomb (array : List lv_event_dsc_t) (n j i : Nat)
    (p : Option Nat) (d : lv_event_dsc_t) (h : array[j]? = some d) (hd : d.cb = none) :
    lv_event_send_shift (n + 1) j array i p = lv_event_send_shift n (j + 1) array i p := by
  simp only [lv_event_send_shift, lv_array_at_of_get _ _ _ h, lv_dsc_read_some, h, hd, if_true]

theorem lv_event_send_shift_step_keep (array : List lv_event_dsc_t) (n j i pn : Nat)
    (d dn : lv_event_dsc_t) (h : array[j]? = some d) (hd : d.cb ≠ none)
    (hn : array[pn]? = some dn) (hdn : dn.cb ≠ none) :
    lv_event_send_shift (n + 1) j array i (some pn) =
      lv_event_send_shift n (j + 1) array i (some pn) := by
  simp only [lv_event_send_shift, lv_array_at_of_get _ _ _ h, lv_dsc_read_some, h, hd,
    if_false, hn, hdn]

theorem lv_event_send_shift_step_move (array : List lv_event_dsc_t) (n j i pn : Nat)
    (d dn : lv_event_dsc_t) (h : array[j]? = some d) (hd : d.cb ≠ none)
    (hn : array[pn]? = some dn) (hdn : dn.cb = none) (hne : pn ≠ j) :
    lv_event_send_shift (n + 1) j array i (some pn) =
      lv_event_send_shift n (j + 1) ((array.set pn d).set j { d with cb := none }) (i + 1)
        (lv_array_at ((array.set pn d).set j { d with cb := none }) (i + 1)) := by
  have h1 : (array.set pn d)[j]? = some d := by
    rw [List.getElem?_set_ne hne]; exact h
  simp only [lv_event_send_shift, lv_array_at_of_get _ _ _ h, lv_dsc_read_some, h, hd,
    if_false, hn, hdn, if_true, h1]

theorem lv_event_send_scan_live (R : List lv_event_dsc_t) :
    ∀ (A : List lv_event_dsc_t) (p : Option Nat), (∀ d ∈ R, d.cb ≠ none) →
      lv_event_send_scan (A ++ R) R.length A.length p =
        some (A.length + R.length, if R = [] then p else some (A.length + R.length - 1)) := by
  induction R with
  | nil => intro A p _; simp [lv_event_send_scan]
  | cons d R ih =>
    intro A p hR
    have hd : d.cb ≠ none := hR d (List.mem_cons_self _ _)
    have hR' : ∀ x ∈ R, x.cb ≠ none := fun x hx => hR x (List.mem_cons_of_mem _ hx)
    have h := ih (A ++ [d]) (some A.length) hR'
    simp only [List.append_assoc, List.singleton_append, List.length_append,
      List.length_singleton] at h
    rw [List.length_cons, lv_event_send_scan_step_live _ _ _ _ d (lv_array_get_mid A R d) hd, h]
    by_cases hr : R = []
    · subst hr; simp
    · have : 0 < R.length := List.length_pos.mpr hr
      simp [hr]; omega

theorem lv_event_send_scan_tomb (L : List lv_event_dsc_t) :
    ∀ (A R : List lv_event_dsc_t) (t : lv_event_dsc_t) (p : Option Nat),
      (∀ d ∈ L, d.cb ≠ none) → t.cb = none →
      lv_event_send_scan (A ++ L ++ t :: R) (L.length + (R.length + 1)) A.length p =
        some (A.length + L.length, some (A.length + L.length)) := by
  induction L with
  | nil =>
    intro A R t p _ ht
    have h := lv_event_send_scan_step_tomb (A ++ t :: R) R.length A.length p t
      (lv_array_get_mid A R t) ht
    simpa using h
  | cons d L ih =>
    intro A R t p hL ht
    have hd : d.cb ≠ none := hL d (List.mem_cons_self _ _)
    have hL' : ∀ x ∈ L, x.cb ≠ none := fun x hx => hL x (List.mem_cons_of_mem _ hx)
    have h := ih (A ++ [d]) R t (some A.length) hL' ht
    simp only [List.append_assoc, List.singleton_append, List.length_append,
      List.length_singleton, List.cons_append] at h ⊢
    have e1 : (d :: L).length + (R.length + 1) = (L.length + (R.length + 1)) + 1 := by
      simp; omega
    rw [e1, lv_event_send_scan_step_live _ _ _ _ d (lv_array_get_mid A _ d) hd]
    simp only [List.nil_append] at h
    rw [h]
    simp; omega

/-- The second loop over `R`, entered with the live prefix `A` and the
tombstones `T` (at least one) between the write position and the read position. -/
theorem lv_event_send_shift_spec (R : List lv_event_dsc_t) :
    ∀ (A T : List lv_event_dsc_t), T ≠ [] → (∀ t ∈ T, t.cb = none) →
      ∃ T2 : List lv_event_dsc_t,
        lv_event_send_shift R.length (A.length + T.length) (A ++ T ++ R) A.length
            (some A.length) =
          some (A ++ R.filter (fun d => d.cb.isSome) ++ T2,
                A.length + (R.filter (fun d => d.cb.isSome)).length) := by
  induction R with
  | nil =>
    intro A T _ _
    exact ⟨T, by simp [lv_event_send_shift]⟩
  | cons d R ih =>
    intro A T hT hTt
    obtain ⟨t, T1, rfl⟩ := List.exists_cons_of_ne_nil hT
    have ht : t.cb = none := hTt t (List.mem_cons_self _ _)
    have hT1 : ∀ x ∈ T1, x.cb = none := fun x hx => hTt x (List.mem_cons_of_mem _ hx)
    have hj : (A ++ t :: T1 ++ d :: R)[A.length + (t :: T1).length]? = some d := by
      have := lv_array_get_mid (A ++ t :: T1) R d
      simp at this ⊢
      exact this
    have hi : (A ++ t :: T1 ++ d :: R)[A.length]? = some t := by
      have := lv_array_get_mid A (T1 ++ d :: R) t
      simpa using this
    rw [List.length_cons]
    cases hd : d.cb with
    | none =>
      obtain ⟨T2, h2⟩ := ih A (t :: T1 ++ [d]) (by simp) (by
        intro x hx
        simp only [List.cons_append, List.mem_cons, List.mem_append, List.not_mem_nil,
          or_false] at hx
        rcases hx with hx | hx | hx
        · rw [hx]; exact ht
        · exact hT1 x hx
        · rw [hx]; exact hd)
      refine ⟨T2, ?_⟩
      rw [lv_event_send_shift_step_tomb _ _ _ _ _ d hj hd]
      have e : A ++ t :: T1 ++ d :: R = A ++ (t :: T1 ++ [d]) ++ R := by simp
      have e2 : A.length + (t :: T1).length + 1 = A.length + (t :: T1 ++ [d]).length := by
        simp only [List.length_cons, List.length_append, List.length_nil]; omega
      rw [e, e2, h2]
      simp [List.filter_cons, hd]
    | some f =>
      have hd' : d.cb ≠ none := by rw [hd]; simp
      have hne : A.length ≠ A.length + (t :: T1).length := by simp
      rw [lv_event_send_shift_step_move _ _ _ _ _ d t hj hd' hi ht hne]
      have hset : ((A ++ t :: T1 ++ d :: R).set A.length d).set (A.length + (t :: T1).length)
          { d with cb := none } = (A ++ [d]) ++ (T1 ++ [{ d with cb := none }]) ++ R := by
        have s1 : (A ++ t :: T1 ++ d :: R).set A.length d = A ++ d :: T1 ++ d :: R := by
          simp
        rw [s1]
        simp
      rw [hset]
      obtain ⟨T2, h2⟩ := ih (A ++ [d]) (T1 ++ [{ d with cb := none }]) (by simp) (by
        intro x hx
        simp only [List.mem_append, List.mem_cons, List.not_mem_nil, or_false] at hx
        rcases hx with hx | hx
        · exact hT1 x hx
        · rw [hx])
      refine ⟨T2, ?_⟩
      have hat : lv_array_at ((A ++ [d]) ++ (T1 ++ [{ d with cb := none }]) ++ R)
          (A.length + 1) = some (A.length + 1) := by
        simp [lv_array_at, lv_array_size]
      have e2 : A.length + (t :: T1).length + 1 =
          (A ++ [d]).length + (T1 ++ [{ d with cb := none }]).length := by
        simp; omega
      have e3 : A.length + 1 = (A ++ [d]).length := by simp
      rw [hat, e2]
      rw [e3, h2]
      simp [List.filter_cons, hd]; omega

/-- The second loop changes nothing while `dsc_null` points to an entry that has
a callback. -/
theorem lv_event_send_shift_noop (array : List lv_event_dsc_t) (i pn : Nat)
    (dn : lv_event_dsc_t) (hn : array[pn]? = some dn) (hdn : dn.cb ≠ none) :
    ∀ (n j : Nat), j + n ≤ array.length →
      lv_event_send_shift n j array i (some pn) = some (array, i) := by
  intro n
  induction n with
  | zero => intro j _; rfl
  | succ n ih =>
    intro j hj
    have hlt : j < array.length := by omega
    have hget : array[j]? = some array[j] := List.getElem?_eq_getElem hlt
    by_cases hd : (array[j]).cb = none
    · rw [lv_event_send_shift_step_tomb _ _ _ _ _ _ hget hd]
      exact ih (j + 1) (by omega)
    · rw [lv_event_send_shift_step_keep _ _ _ _ _ _ dn hget hd hn hdn]
      exact ih (j + 1) (by omega)

/-- Every list is all callbacks, or a run of callbacks followed by a tombstone. -/
theorem lv_array_live_prefix (l : List lv_event_dsc_t) :
    (∀ d ∈ l, d.cb ≠ none) ∨
      ∃ (L R : List lv_event_dsc_t) (t : lv_event_dsc_t),
        l = L ++ t :: R ∧ (∀ d ∈ L, d.cb ≠ none) ∧ t.cb = none := by
  induction l with
  | nil => left; simp
  | cons a l ih =>
    by_cases ha : a.cb = none
    · right; exact ⟨[], l, a, rfl, by simp, ha⟩
    · rcases ih with h | ⟨L, R, t, hl, hL, ht⟩
      · left
        intro d hd
        rcases List.mem_cons.mp hd with h1 | h1
        · rw [h1]; exact ha
        · exact h d h1
      · right
        refine ⟨a :: L, R, t, by simp [hl], ?_, ht⟩
        intro d hd
        rcases List.mem_cons.mp hd with h1 | h1
        · rw [h1]; exact ha
        · exact hL d h1

theorem lv_array_filter_live (l : List lv_event_dsc_t) (h : ∀ d ∈ l, d.cb ≠ none) :
    l.filter (fun d => d.cb.isSome) = l := by
  apply List.filter_eq_self.mpr
  intro d hd
  have := h d hd
  cases hc : d.cb with
  | none => exact absurd hc this
  | some f => rfl

/-- The partial compaction keeps exactly the entries that have a callback, in
their order. -/
theorem lv_event_send_compact_eq (array : List lv_event_dsc_t) (hsize : array.length < 2 ^ 32) :
    lv_event_send_compact array = some (array.filter (fun d => d.cb.isSome)) := by
  unfold lv_event_send_compact lv_array_size
  dsimp only
  rcases lv_array_live_prefix array with hall | ⟨L, R, t, rfl, hL, ht⟩
  · have hs := lv_event_send_scan_live array [] none hall
    simp only [List.nil_append, List.length_nil, Nat.zero_add] at hs
    rw [hs, lv_array_filter_live _ hall]
    by_cases he : array = []
    · subst he; simp [lv_event_send_shift]
    · have hpos : 0 < array.length := List.length_pos.mpr he
      simp only [he, if_false]
      by_cases hw : array.length + 1 < 2 ^ 32
      · rw [Nat.mod_eq_of_lt hw]
        have hz : array.length - (array.length + 1) = 0 := by omega
        rw [hz]
        simp [lv_event_send_shift]
      · have hfull : array.length + 1 = 2 ^ 32 := by omega
        have hlast : array[array.length - 1]? = some (array[array.length - 1]) :=
          List.getElem?_eq_getElem (by omega)
        have hlive : (array[array.length - 1]).cb ≠ none :=
          hall _ (List.getElem_mem _)
        rw [hfull, Nat.mod_self, Nat.sub_zero,
          lv_event_send_shift_noop array array.length (array.length - 1) _ hlast hlive
            array.length 0 (by omega)]
        simp
  · have hs := lv_event_send_scan_tomb L [] R t none hL ht
    simp only [List.nil_append, List.length_nil, Nat.zero_add] at hs
    have hlen : (L ++ t :: R).length = L.length + (R.length + 1) := by simp
    rw [hlen, hs]
    dsimp only
    have hj : (L.length + 1) % 2 ^ 32 = L.length + 1 := by
      apply Nat.mod_eq_of_lt
      rw [hlen] at hsize; omega
    rw [hj]
    have hn : L.length + (R.length + 1) - (L.length + 1) = R.length := by omega
    rw [hn]
    obtain ⟨T2, h2⟩ := lv_event_send_shift_spec R L [t] (by simp) (by
      intro x hx; rw [List.mem_singleton.mp hx]; exact ht)
    have e : L ++ [t] ++ R = L ++ t :: R := by simp
    rw [e] at h2
    simp only [List.length_singleton] at h2
    rw [h2]
    have hf : (L ++ t :: R).filter (fun d => d.cb.isSome) =
        L ++ R.filter (fun d => d.cb.isSome) := by
      rw [List.filter_append, lv_array_filter_live L hL, List.filter_cons]
      simp [ht]
    rw [hf]
    simp only [lv_array_resize]
    split
    · rw [List.take_append_eq_append_take]
      simp [List.take_append_eq_append_take]
    · rename_i hne
      exfalso
      have hle := List.length_filter_le (fun d : lv_event_dsc_t => d.cb.isSome) R
      omega

/-! ## One iteration of the dispatch loop -/

theorem lv_event_send_loop_skip (ALL PREPROCESS : Nat) (cbs : Nat → lv_event_cb_t)
    (preprocess : Bool) (n i : Nat) (w : lv_world_t) (d : lv_event_dsc_t)
    (h : w.list.array[i]? = some d)
    (hf : lv_dsc_fires ALL PREPROCESS d w.e.code preprocess = false) :
    lv_event_send_loop ALL PREPROCESS cbs preprocess (n + 1) i w =
      lv_event_send_loop ALL PREPROCESS cbs preprocess n (i + 1) w := by
  simp only [lv_event_send_loop, lv_dsc_read_at, h]
  cases hcb : d.cb with
  | none => rfl
  | some f =>
    simp only [lv_dsc_fires, hcb, Option.isSome_some, Bool.true_and, Bool.and_eq_false_iff,
      Bool.or_eq_false_iff, decide_eq_false_iff_not, beq_eq_false_iff_ne] at hf
    rcases hf with hf | ⟨h1, h2⟩
    · simp [hf]
    · simp [h1, h2]

theorem lv_event_send_loop_call (ALL PREPROCESS : Nat) (cbs : Nat → lv_event_cb_t)
    (preprocess : Bool) (n i : Nat) (w : lv_world_t) (d : lv_event_dsc_t) (f : Nat)
    (h : w.list.array[i]? = some d) (hcb : d.cb = some f)
    (hf : lv_dsc_fires ALL PREPROCESS d w.e.code preprocess = true) :
    lv_event_send_loop ALL PREPROCESS cbs preprocess (n + 1) i w =
      match cbs f { w with e := lv_event_bind w.e d } with
      | none => none
      | some w1 =>
        if lv_event_aborts w1.e then
          some (true, w1, [{ index := i, cb := f, e := lv_event_bind w.e d, ret := w1.e }])
        else
          (lv_event_send_loop ALL PREPROCESS cbs preprocess n (i + 1) w1).map
            fun r => (r.1, r.2.1,
              { index := i, cb := f, e := lv_event_bind w.e d, ret := w1.e } :: r.2.2) := by
  simp only [lv_dsc_fires, hcb, Option.isSome_some, Bool.true_and, Bool.and_eq_true,
    Bool.or_eq_true, decide_eq_true_eq, beq_iff_eq] at hf
  obtain ⟨h1, h2⟩ := hf
  simp only [lv_event_send_loop, lv_dsc_read_at, h, hcb, h1, bne_self_eq_false, h2,
    lv_event_bind, lv_event_aborts]
  cases hc : cbs f { w with e := { w.e with user_data := d.user_data } } with
  | none => simp
  | some w1 =>
    cases hs : w1.e.stop_processing <;> cases hd : w1.e.deleted <;> simp [hs, hd]

theorem lv_event_send_loop_oob (ALL PREPROCESS : Nat) (cbs : Nat → lv_event_cb_t)
    (preprocess : Bool) (n i : Nat) (w : lv_world_t) (h : w.list.array[i]? = none) :
    lv_event_send_loop ALL PREPROCESS cbs preprocess (n + 1) i w = none := by
  simp only [lv_event_send_loop, lv_dsc_read_at, h]

/-- Inversion of one iteration: the entry is read, and either it is skipped or
its callback is called, after which the loop returns or goes on. -/
theorem lv_event_send_loop_inv (ALL PREPROCESS : Nat) (cbs : Nat → lv_event_cb_t)
    (preprocess : Bool) (n i : Nat) (w : lv_world_t)
    (r : Bool × lv_world_t × List lv_event_call_t)
    (h : lv_event_send_loop ALL PREPROCESS cbs preprocess (n + 1) i w = some r) :
    ∃ d, w.list.array[i]? = some d ∧
      ((lv_dsc_fires ALL PREPROCESS d w.e.code preprocess = false ∧
          lv_event_send_loop ALL PREPROCESS cbs preprocess n (i + 1) w = some r) ∨
       (∃ f w1, d.cb = some f ∧ lv_dsc_fires ALL PREPROCESS d w.e.code preprocess = true ∧
          cbs f { w with e := lv_event_bind w.e d } = some w1 ∧
          ((lv_event_aborts w1.e = true ∧
              r = (true, w1, [{ index := i, cb := f, e := lv_event_bind w.e d, ret := w1.e }])) ∨
           (lv_event_aborts w1.e = false ∧
              ∃ r1, lv_event_send_loop ALL PREPROCESS cbs preprocess n (i + 1) w1 = some r1 ∧
                r = (r1.1, r1.2.1,
                  { index := i, cb := f, e := lv_event_bind w.e d, ret := w1.e } :: r1.2.2))))) := by
  cases hd : w.list.array[i]? with
  | none => rw [lv_event_send_loop_oob _ _ _ _ _ _ _ hd] at h; cases h
  | some d =>
    refine ⟨d, rfl, ?_⟩
    cases hf : lv_dsc_fires ALL PREPROCESS d w.e.code preprocess with
    | false =>
      left
      rw [lv_event_send_loop_skip _ _ _ _ _ _ _ d hd hf] at h
      exact ⟨rfl, h⟩
    | true =>
      right
      have hsome : d.cb.isSome = true := by
        simp only [lv_dsc_fires, Bool.and_eq_true] at hf
        exact hf.1.1
      obtain ⟨f, hcb⟩ := Option.isSome_iff_exists.mp hsome
      rw [lv_event_send_loop_call _ _ _ _ _ _ _ d f hd hcb hf] at h
      cases hc : cbs f { w with e := lv_event_bind w.e d } with
      | none => rw [hc] at h; cases h
      | some w1 =>
        rw [hc] at h
        refine ⟨f, w1, hcb, rfl, hc, ?_⟩
        cases ha : lv_event_aborts w1.e with
        | true =>
          left
          simp only [ha, if_true, Option.some.injEq] at h
          exact ⟨rfl, h.symm⟩
        | false =>
          right
          simp only [ha, Bool.false_eq_true, if_false, Option.map_eq_some'] at h
          obtain ⟨r1, h1, h2⟩ := h
          exact ⟨rfl, r1, h1, h2.symm⟩

/-! ## Properties of the dispatch loop that hold for every callback -/

/-- The invocations of the loop started at index `i` with `n` iterations left
have indices in `[i, i + n)`, strictly increasing. -/
theorem lv_event_send_loop_index (ALL PREPROCESS : Nat) (cbs : Nat → lv_event_cb_t)
    (preprocess : Bool) (n : Nat) :
    ∀ (i : Nat) (w : lv_world_t) (r : Bool × lv_world_t × List lv_event_call_t),
      lv_event_send_loop ALL PREPROCESS cbs preprocess n i w = some r →
      (∀ c ∈ r.2.2, i ≤ c.index ∧ c.index < i + n) ∧
        r.2.2.Pairwise (fun a b => a.index < b.index) ∧ r.2.2.length ≤ n := by
  induction n with
  | zero =>
    intro i w r h
    simp only [lv_event_send_loop, Option.some.injEq] at h
    subst h
    simp
  | succ n ih =>
    intro i w r h
    obtain ⟨d, _, hcase⟩ := lv_event_send_loop_inv _ _ _ _ _ _ _ _ h
    rcases hcase with ⟨_, hrec⟩ | ⟨f, w1, _, _, _, hcase⟩
    · obtain ⟨h1, h2, h3⟩ := ih (i + 1) w r hrec
      refine ⟨fun c hc => ?_, h2, by omega⟩
      have := h1 c hc
      omega
    · rcases hcase with ⟨_, hr⟩ | ⟨_, r1, hrec, hr⟩
      · subst hr
        simp
      · obtain ⟨h1, h2, h3⟩ := ih (i + 1) w1 r1 hrec
        subst hr
        refine ⟨?_, ?_, by simp; omega⟩
        · intro c hc
          rcases List.mem_cons.mp hc with hc | hc
          · subst hc; simp
          · have := h1 c hc
            omega
        · refine List.pairwise_cons.mpr ⟨?_, h2⟩
          intro c hc
          have := h1 c hc
          simp only
          omega

/-- A callback that returns with `deleted` set and `stop_processing` clear is
the last one invoked and makes the loop return; and the loop returns only so. -/
theorem lv_event_send_loop_abort (ALL PREPROCESS : Nat) (cbs : Nat → lv_event_cb_t)
    (preprocess : Bool) (n : Nat) :
    ∀ (i : Nat) (w : lv_world_t) (r : Bool × lv_world_t × List lv_event_call_t),
      lv_event_send_loop ALL PREPROCESS cbs preprocess n i w = some r →
      (∀ (pre : List lv_event_call_t) (c : lv_event_call_t) (post : List lv_event_call_t),
          r.2.2 = pre ++ c :: post → lv_event_aborts c.ret = true → post = [] ∧ r.1 = true) ∧
        (r.1 = true → ∃ c ∈ r.2.2, lv_event_aborts c.ret = true) := by
  induction n with
  | zero =>
    intro i w r h
    simp only [lv_event_send_loop, Option.some.injEq] at h
    subst h
    simp
  | succ n ih =>
    intro i w r h
    obtain ⟨d, _, hcase⟩ := lv_event_send_loop_inv _ _ _ _ _ _ _ _ h
    rcases hcase with ⟨_, hrec⟩ | ⟨f, w1, _, _, _, hcase⟩
    · exact ih (i + 1) w r hrec
    · rcases hcase with ⟨hab, hr⟩ | ⟨hab, r1, hrec, hr⟩
      · subst hr
        refine ⟨?_, fun _ => ⟨_, List.mem_singleton.mpr rfl, hab⟩⟩
        intro pre c post hsplit _
        cases pre with
        | nil =>
          simp only [List.nil_append, List.cons.injEq] at hsplit
          exact ⟨hsplit.2.symm, rfl⟩
        | cons a pre =>
          simp only [List.cons_append, List.cons.injEq] at hsplit
          have := hsplit.2
          simp at this
      · obtain ⟨h1, h2⟩ := ih (i + 1) w1 r1 hrec
        subst hr
        refine ⟨?_, ?_⟩
        · intro pre c post hsplit hc
          cases pre with
          | nil =>
            simp only [List.nil_append, List.cons.injEq] at hsplit
            rw [← hsplit.1] at hc
            simp only at hc
            rw [hab] at hc
            cases hc
          | cons a pre =>
            simp only [List.cons_append, List.cons.injEq] at hsplit
            exact h1 pre c post hsplit.2 hc
        · intro hr
          obtain ⟨c, hc, hca⟩ := h2 hr
          exact ⟨c, List.mem_cons_of_mem _ hc, hca⟩

/-- State of the memory the loop leaves under an invariant `I` of the registry
that every callback preserves: the invariant holds at the end, and each
invocation read its entry from a registry that satisfies it. -/
theorem lv_event_send_loop_invariant (ALL PREPROCESS : Nat) (cbs : Nat → lv_event_cb_t)
    (preprocess : Bool) (I : lv_event_list_t → Prop)
    (hI : ∀ f w w1, cbs f w = some w1 → I w.list → I w1.list) (n : Nat) :
    ∀ (i : Nat) (w : lv_world_t) (r : Bool × lv_world_t × List lv_event_call_t),
      lv_event_send_loop ALL PREPROCESS cbs preprocess n i w = some r → I w.list →
      I r.2.1.list ∧
        ∀ c ∈ r.2.2, ∃ l d, I l ∧ l.array[c.index]? = some d ∧ d.cb = some c.cb := by
  induction n with
  | zero =>
    intro i w r h hw
    simp only [lv_event_send_loop, Option.some.injEq] at h
    subst h
    simp [hw]
  | succ n ih =>
    intro i w r h hw
    obtain ⟨d, hd, hcase⟩ := lv_event_send_loop_inv _ _ _ _ _ _ _ _ h
    rcases hcase with ⟨_, hrec⟩ | ⟨f, w1, hcb, _, hcall, hcase⟩
    · exact ih (i + 1) w r hrec hw
    · have hw1 : I w1.list := hI f _ w1 hcall hw
      rcases hcase with ⟨_, hr⟩ | ⟨_, r1, hrec, hr⟩
      · subst hr
        refine ⟨hw1, ?_⟩
        intro c hc
        rw [List.mem_singleton.mp hc]
        exact ⟨w.list, d, hw, hd, hcb⟩
      · obtain ⟨h1, h2⟩ := ih (i + 1) w1 r1 hrec hw1
        subst hr
        refine ⟨h1, ?_⟩
        intro c hc
        rcases List.mem_cons.mp hc with hc | hc
        · rw [hc]
          exact ⟨w.list, d, hw, hd, hcb⟩
        · exact h2 c hc

/-! ## Splitting the loop, and segments of observing callbacks -/

/-- A segment `S` of entries whose callbacks do not modify the registry: the
loop runs through it (or returns inside it) and leaves the registry as it was. -/
theorem lv_event_send_loop_keeps (ALL PREPROCESS : Nat) (cbs : Nat → lv_event_cb_t)
    (preprocess : Bool) (S : List lv_event_dsc_t) :
    ∀ (A R : List lv_event_dsc_t) (w : lv_world_t), w.list.array = A ++ S ++ R →
      (∀ d ∈ S, ∀ f, d.cb = some f → lv_cb_keeps_registry (cbs f)) →
      ∃ r, lv_event_send_loop ALL PREPROCESS cbs preprocess S.length A.length w = some r ∧
        r.2.1.list = w.list := by
  induction S with
  | nil =>
    intro A R w _ _
    exact ⟨(false, w, []), rfl, rfl⟩
  | cons d S ih =>
    intro A R w harr hS
    have hd : w.list.array[A.length]? = some d := by
      rw [harr]
      have := lv_array_get_mid A (S ++ R) d
      simp at this ⊢
      exact this
    have harr2 : w.list.array = (A ++ [d]) ++ S ++ R := by rw [harr]; simp
    have hS2 : ∀ x ∈ S, ∀ f, x.cb = some f → lv_cb_keeps_registry (cbs f) :=
      fun x hx => hS x (List.mem_cons_of_mem _ hx)
    have hlen : (A ++ [d]).length = A.length + 1 := by simp
    rw [List.length_cons]
    cases hf : lv_dsc_fires ALL PREPROCESS d w.e.code preprocess with
    | false =>
      rw [lv_event_send_loop_skip _ _ _ _ _ _ _ d hd hf, ← hlen]
      exact ih (A ++ [d]) R w harr2 hS2
    | true =>
      have hsome : d.cb.isSome = true := by
        simp only [lv_dsc_fires, Bool.and_eq_true] at hf
        exact hf.1.1
      obtain ⟨f, hcb⟩ := Option.isSome_iff_exists.mp hsome
      rw [lv_event_send_loop_call _ _ _ _ _ _ _ d f hd hcb hf]
      obtain ⟨w1, hc, hl⟩ := hS d (List.mem_cons_self _ _) f hcb
        { w with e := lv_event_bind w.e d }
      rw [hc]
      dsimp only at hl ⊢
      cases ha : lv_event_aborts w1.e with
      | true => exact ⟨_, rfl, hl⟩
      | false =>
        simp only [Bool.false_eq_true, if_false]
        obtain ⟨r, hr, hrl⟩ := ih (A ++ [d]) R w1 (by rw [hl]; exact harr2) hS2
        rw [hlen] at hr
        rw [hr]
        exact ⟨_, rfl, by simp only [Option.map_some']; rw [hrl, hl]⟩

/-- A segment `S` of entries whose callbacks only observe, entered with an event
that does not make the loop return: the loop runs through the segment, invokes
exactly the entries that pass the filter test, in order, each with its user data
bound, and leaves the registry, the flags and the category as they were. -/
theorem lv_event_send_loop_passive (ALL PREPROCESS : Nat) (cbs : Nat → lv_event_cb_t)
    (preprocess : Bool) (S : List lv_event_dsc_t) :
    ∀ (A R : List lv_event_dsc_t) (w : lv_world_t), w.list.array = A ++ S ++ R →
      (∀ d ∈ S, ∀ f, d.cb = some f → lv_cb_passive (cbs f)) →
      lv_event_aborts w.e = false →
      ∃ w1 calls,
        lv_event_send_loop ALL PREPROCESS cbs preprocess S.length A.length w =
          some (false, w1, calls) ∧
        w1.list = w.list ∧ w1.e.deleted = w.e.deleted ∧
        w1.e.stop_processing = w.e.stop_processing ∧ w1.e.code = w.e.code ∧
        calls.map lv_event_call_t.key =
          lv_fired_from ALL PREPROCESS w.e.code preprocess A.length S := by
  induction S with
  | nil =>
    intro A R w _ _ _
    exact ⟨w, [], rfl, rfl, rfl, rfl, rfl, rfl⟩
  | cons d S ih =>
    intro A R w harr hS hab
    have hd : w.list.array[A.length]? = some d := by
      rw [harr]
      have := lv_array_get_mid A (S ++ R) d
      simp at this ⊢
      exact this
    have harr2 : w.list.array = (A ++ [d]) ++ S ++ R := by rw [harr]; simp
    have hS2 : ∀ x ∈ S, ∀ f, x.cb = some f → lv_cb_passive (cbs f) :=
      fun x hx => hS x (List.mem_cons_of_mem _ hx)
    have hlen : (A ++ [d]).length = A.length + 1 := by simp
    rw [List.length_cons]
    cases hf : lv_dsc_fires ALL PREPROCESS d w.e.code preprocess with
    | false =>
      rw [lv_event_send_loop_skip _ _ _ _ _ _ _ d hd hf]
      obtain ⟨w1, calls, h1, h2, h3, h4, h5, h6⟩ := ih (A ++ [d]) R w harr2 hS2 hab
      rw [hlen] at h1 h6
      refine ⟨w1, calls, h1, h2, h3, h4, h5, ?_⟩
      rw [h6]
      cases hcb : d.cb <;> simp [lv_fired_from, hcb, hf]
    | true =>
      have hsome : d.cb.isSome = true := by
        simp only [lv_dsc_fires, Bool.and_eq_true] at hf
        exact hf.1.1
      obtain ⟨f, hcb⟩ := Option.isSome_iff_exists.mp hsome
      rw [lv_event_send_loop_call _ _ _ _ _ _ _ d f hd hcb hf]
      obtain ⟨hk, hfl, hco⟩ := hS d (List.mem_cons_self _ _) f hcb
      obtain ⟨w1, hc, hl⟩ := hk { w with e := lv_event_bind w.e d }
      obtain ⟨hdel, hstop, _⟩ := hfl _ w1 hc
      have hcode := hco _ w1 hc
      rw [hc]
      dsimp only [lv_event_bind] at hl hdel hstop hcode ⊢
      have ha : lv_event_aborts w1.e = false := by
        simp only [lv_event_aborts, hdel, hstop] at hab ⊢
        exact hab
      simp only [ha, Bool.false_eq_true, if_false]
      obtain ⟨w2, calls, h1, h2, h3, h4, h5, h6⟩ :=
        ih (A ++ [d]) R w1 (by rw [hl]; exact harr2) hS2 ha
      rw [hlen] at h1 h6
      rw [h1]
      refine ⟨w2, _, rfl, by rw [h2, hl], by rw [h3, hdel], by rw [h4, hstop],
        by rw [h5, hcode], ?_⟩
      simp only [List.map_cons, lv_event_call_t.key, lv_fired_from, hcb, hf, if_true]
      rw [← hcode]
      exact congrArg _ h6
/-! ## After the loop: flags and compaction -/

theorem lv_event_send_some (ALL PREPROCESS : Nat) (cbs : Nat → lv_event_cb_t)
    (list : lv_event_list_t) (e : lv_event_t) (preprocess : Bool) :
    lv_event_send ALL PREPROCESS cbs (some list) e preprocess =
      lv_event_send_body ALL PREPROCESS cbs list e preprocess := rfl

/-- The loop of a pass runs on the registry with TRAVERSING set. -/
theorem lv_event_send_body_abort (ALL PREPROCESS : Nat) (cbs : Nat → lv_event_cb_t)
    (list : lv_event_list_t) (e : lv_event_t) (preprocess : Bool) (w : lv_world_t)
    (calls : List lv_event_call_t)
    (hloop : lv_event_send_loop ALL PREPROCESS cbs preprocess list.array.length 0
      { list := lv_event_add_flag list LV_EVENT_FLAG_TRAVERSING, e := e } =
        some (true, w, calls)) :
    lv_event_send_body ALL PREPROCESS cbs list e preprocess =
      some { res := LV_RESULT_INVALID, list := some w.list, e := w.e, calls := calls } := by
  have h : lv_array_size (lv_event_add_flag list LV_EVENT_FLAG_TRAVERSING).array =
      list.array.length := rfl
  simp only [lv_event_send_body, h, hloop]

theorem lv_event_send_body_nested (ALL PREPROCESS : Nat) (cbs : Nat → lv_event_cb_t)
    (list : lv_event_list_t) (e : lv_event_t) (preprocess : Bool) (w : lv_world_t)
    (calls : List lv_event_call_t)
    (hloop : lv_event_send_loop ALL PREPROCESS cbs preprocess list.array.length 0
      { list := lv_event_add_flag list LV_EVENT_FLAG_TRAVERSING, e := e } =
        some (false, w, calls))
    (ht : list.flags.traversing = true) :
    lv_event_send_body ALL PREPROCESS cbs list e preprocess =
      some { res := LV_RESULT_OK, list := some w.list, e := w.e, calls := calls } := by
  have h : lv_array_size (lv_event_add_flag list LV_EVENT_FLAG_TRAVERSING).array =
      list.array.length := rfl
  simp only [lv_event_send_body, h, hloop]
  simp [lv_event_has_flag, LV_EVENT_FLAG_TRAVERSING, ht]

theorem lv_event_send_body_plain (ALL PREPROCESS : Nat) (cbs : Nat → lv_event_cb_t)
    (list : lv_event_list_t) (e : lv_event_t) (preprocess : Bool) (w : lv_world_t)
    (calls : List lv_event_call_t)
    (hloop : lv_event_send_loop ALL PREPROCESS cbs preprocess list.array.length 0
      { list := lv_event_add_flag list LV_EVENT_FLAG_TRAVERSING, e := e } =
        some (false, w, calls))
    (ht : list.flags.traversing = false) (hr : w.list.flags.removed = false) :
    lv_event_send_body ALL PREPROCESS cbs list e preprocess =
      some { res := LV_RESULT_OK,
             list := some { array := w.list.array,
                            flags := ⟨false, false, w.list.flags.all_removed⟩ },
             e := w.e, calls := calls } := by
  have h : lv_array_size (lv_event_add_flag list LV_EVENT_FLAG_TRAVERSING).array =
      list.array.length := rfl
  simp only [lv_event_send_body, h, hloop]
  simp [lv_event_has_flag, LV_EVENT_FLAG_TRAVERSING, ht,
    LV_EVENT_FLAG_REMOVED, lv_event_remove_flag, hr]

theorem lv_event_send_body_clear (ALL PREPROCESS : Nat) (cbs : Nat → lv_event_cb_t)
    (list : lv_event_list_t) (e : lv_event_t) (preprocess : Bool) (w : lv_world_t)
    (calls : List lv_event_call_t)
    (hloop : lv_event_send_loop ALL PREPROCESS cbs preprocess list.array.length 0
      { list := lv_event_add_flag list LV_EVENT_FLAG_TRAVERSING, e := e } =
        some (false, w, calls))
    (ht : list.flags.traversing = false) (hr : w.list.flags.removed = true)
    (ha : w.list.flags.all_removed = true) :
    lv_event_send_body ALL PREPROCESS cbs list e preprocess =
      some { res := LV_RESULT_OK,
             list := some { array := [], flags := ⟨false, true, true⟩ },
             e := w.e, calls := calls } := by
  have h : lv_array_size (lv_event_add_flag list LV_EVENT_FLAG_TRAVERSING).array =
      list.array.length := rfl
  simp only [lv_event_send_body, h, hloop]
  simp [lv_event_has_flag, LV_EVENT_FLAG_TRAVERSING, ht,
    LV_EVENT_FLAG_REMOVED, LV_EVENT_FLAG_ALL_REMOVED, lv_event_remove_flag, hr, ha,
    lv_array_deinit]

theorem lv_event_send_body_compact (ALL PREPROCESS : Nat) (cbs : Nat → lv_event_cb_t)
    (list : lv_event_list_t) (e : lv_event_t) (preprocess : Bool) (w : lv_world_t)
    (calls : List lv_event_call_t)
    (hloop : lv_event_send_loop ALL PREPROCESS cbs preprocess list.array.length 0
      { list := lv_event_add_flag list LV_EVENT_FLAG_TRAVERSING, e := e } =
        some (false, w, calls))
    (ht : list.flags.traversing = false) (hr : w.list.flags.removed = true)
    (ha : w.list.flags.all_removed = false) (hsize : w.list.array.length < 2 ^ 32) :
    lv_event_send_body ALL PREPROCESS cbs list e preprocess =
      some { res := LV_RESULT_OK,
             list := some { array := w.list.array.filter (fun d => d.cb.isSome),
                            flags := ⟨false, false, false⟩ },
             e := w.e, calls := calls } := by
  have h : lv_array_size (lv_event_add_flag list LV_EVENT_FLAG_TRAVERSING).array =
      list.array.length := rfl
  simp only [lv_event_send_body, h, hloop]
  simp [lv_event_has_flag, LV_EVENT_FLAG_TRAVERSING, ht,
    LV_EVENT_FLAG_REMOVED, LV_EVENT_FLAG_ALL_REMOVED, lv_event_remove_flag, hr, ha,
    lv_event_send_compact_eq _ hsize]

/-- Whatever the flags, a pass whose loop ran to its end returns `LV_RESULT_OK`
with the event and the invocations of the loop. -/
theorem lv_event_send_body_ok (ALL PREPROCESS : Nat) (cbs : Nat → lv_event_cb_t)
    (list : lv_event_list_t) (e : lv_event_t) (preprocess : Bool) (w : lv_world_t)
    (calls : List lv_event_call_t)
    (hloop : lv_event_send_loop ALL PREPROCESS cbs preprocess list.array.length 0
      { list := lv_event_add_flag list LV_EVENT_FLAG_TRAVERSING, e := e } =
        some (false, w, calls))
    (hsize : w.list.array.length < 2 ^ 32) :
    ∃ l1, lv_event_send_body ALL PREPROCESS cbs list e preprocess =
      some { res := LV_RESULT_OK, list := some l1, e := w.e, calls := calls } := by
  cases ht : list.flags.traversing with
  | true => exact ⟨_, lv_event_send_body_nested _ _ _ _ _ _ _ _ hloop ht⟩
  | false =>
    cases hr : w.list.flags.removed with
    | false => exact ⟨_, lv_event_send_body_plain _ _ _ _ _ _ _ _ hloop ht hr⟩
    | true =>
      cases ha : w.list.flags.all_removed with
      | true => exact ⟨_, lv_event_send_body_clear _ _ _ _ _ _ _ _ hloop ht hr ha⟩
      | false => exact ⟨_, lv_event_send_body_compact _ _ _ _ _ _ _ _ hloop ht hr ha hsize⟩

/-! ## The expected invocations -/

theorem lv_dsc_fires_iff (ALL PREPROCESS : Nat) (d : lv_event_dsc_t) (code : Nat)
    (preprocess : Bool) :
    lv_dsc_fires ALL PREPROCESS d code preprocess = true ↔
      d.cb ≠ none ∧ lv_dsc_is_preprocessed PREPROCESS d = preprocess ∧
        (lv_dsc_filter_code PREPROCESS d = ALL ∨ lv_dsc_filter_code PREPROCESS d = code) := by
  simp [lv_dsc_fires, Option.isSome_iff_ne_none, and_assoc]

theorem lv_fired_from_index (ALL PREPROCESS code : Nat) (preprocess : Bool)
    (S : List lv_event_dsc_t) :
    ∀ (i k : Nat),
      (∃ x ∈ lv_fired_from ALL PREPROCESS code preprocess i S, x.1 = k) ↔
        ∃ d, i ≤ k ∧ S[k - i]? = some d ∧
          lv_dsc_fires ALL PREPROCESS d code preprocess = true := by
  induction S with
  | nil => intro i k; simp [lv_fired_from]
  | cons a S ih =>
    intro i k
    have hrest : (∃ x ∈ lv_fired_from ALL PREPROCESS code preprocess (i + 1) S, x.1 = k) ↔
        ∃ d, i + 1 ≤ k ∧ (a :: S)[k - i]? = some d ∧
          lv_dsc_fires ALL PREPROCESS d code preprocess = true := by
      rw [ih (i + 1) k]
      constructor
      · rintro ⟨d, h1, h2, h3⟩
        refine ⟨d, h1, ?_, h3⟩
        have e : k - i = (k - (i + 1)) + 1 := by omega
        rw [e, List.getElem?_cons_succ]; exact h2
      · rintro ⟨d, h1, h2, h3⟩
        refine ⟨d, h1, ?_, h3⟩
        have e : k - i = (k - (i + 1)) + 1 := by omega
        rw [e, List.getElem?_cons_succ] at h2; exact h2
    by_cases hfire : lv_dsc_fires ALL PREPROCESS a code preprocess = true
    · have hsome : a.cb.isSome = true := by
        simp only [lv_dsc_fires, Bool.and_eq_true] at hfire
        exact hfire.1.1
      obtain ⟨f, hcb⟩ := Option.isSome_iff_exists.mp hsome
      simp only [lv_fired_from, hcb, hfire, if_true, List.mem_cons, exists_eq_or_imp]
      rw [hrest]
      constructor
      · rintro (h | ⟨d, h1, h2, h3⟩)
        · refine ⟨a, by omega, ?_, hfire⟩
          have e : k - i = 0 := by omega
          rw [e]; simp
        · exact ⟨d, by omega, h2, h3⟩
      · rintro ⟨d, h1, h2, h3⟩
        by_cases hk : k = i
        · left; exact hk.symm
        · right; exact ⟨d, by omega, h2, h3⟩
    · have hstep : lv_fired_from ALL PREPROCESS code preprocess i (a :: S) =
          lv_fired_from ALL PREPROCESS code preprocess (i + 1) S := by
        cases hcb : a.cb <;> simp [lv_fired_from, hcb, hfire]
      rw [hstep, hrest]
      constructor
      · rintro ⟨d, h1, h2, h3⟩
        exact ⟨d, by omega, h2, h3⟩
      · rintro ⟨d, h1, h2, h3⟩
        by_cases hk : k = i
        · exfalso
          have e : k - i = 0 := by omega
          rw [e] at h2
          simp only [List.getElem?_cons_zero, Option.some.injEq] at h2
          rw [h2] at hfire
          exact hfire h3
        · exact ⟨d, by omega, h2, h3⟩

/-! ## The pass over a registry of observing callbacks -/

/-- A pass over a registry whose callbacks do not modify it: the loop leaves
the registry it ran on. -/
theorem lv_event_send_loop_keeps_all (ALL PREPROCESS : Nat) (cbs : Nat → lv_event_cb_t)
    (preprocess : Bool) (w : lv_world_t)
    (hcb : ∀ d ∈ w.list.array, ∀ f, d.cb = some f → lv_cb_keeps_registry (cbs f)) :
    ∃ r, lv_event_send_loop ALL PREPROCESS cbs preprocess w.list.array.length 0 w = some r ∧
      r.2.1.list = w.list := by
  have h := lv_event_send_loop_keeps ALL PREPROCESS cbs preprocess w.list.array [] [] w
    (by simp) hcb
  simpa using h

theorem lv_event_send_loop_passive_all (ALL PREPROCESS : Nat) (cbs : Nat → lv_event_cb_t)
    (preprocess : Bool) (w : lv_world_t)
    (hcb : ∀ d ∈ w.list.array, ∀ f, d.cb = some f → lv_cb_passive (cbs f))
    (hab : lv_event_aborts w.e = false) :
    ∃ w1 calls,
      lv_event_send_loop ALL PREPROCESS cbs preprocess w.list.array.length 0 w =
        some (false, w1, calls) ∧
      w1.list = w.list ∧ w1.e.deleted = w.e.deleted ∧
      w1.e.stop_processing = w.e.stop_processing ∧ w1.e.code = w.e.code ∧
      calls.map lv_event_call_t.key =
        lv_fired_from ALL PREPROCESS w.e.code preprocess 0 w.list.array := by
  have h := lv_event_send_loop_passive ALL PREPROCESS cbs preprocess w.list.array [] [] w
    (by simp) hcb hab
  simpa using h

theorem lv_event_aborts_of_not_deleted (e : lv_event_t) (h : e.deleted = false) :
    lv_event_aborts e = false := by
  simp [lv_event_aborts, h]

/-! ## Registration -/

theorem lv_event_add_nonempty (list : lv_event_list_t) (cb : Option Nat) (filter ud : Nat)
    (h : list.array ≠ []) :
    lv_event_add list cb filter ud =
      { array := list.array ++ [⟨cb, filter, ud⟩], flags := list.flags } := by
  have hlen : list.array.length ≠ 0 := fun hc => h (List.length_eq_zero.mp hc)
  simp [lv_event_add, lv_array_size, hlen, lv_array_push_back]

theorem lv_event_add_empty (list : lv_event_list_t) (cb : Option Nat) (filter ud : Nat)
    (h : list.array = []) :
    lv_event_add list cb filter ud =
      { array := [⟨cb, filter, ud⟩], flags := lv_event_flag_t.zero } := by
  simp [lv_event_add, lv_array_size, h, lv_array_push_back, lv_array_init]

theorem lv_event_add_all_nonempty (ls : List (Nat × Nat × Nat)) :
    ∀ (list : lv_event_list_t), list.array ≠ [] →
      lv_event_add_all list ls =
        { array := list.array ++ ls.map lv_dsc_of, flags := list.flags } := by
  induction ls with
  | nil => intro list _; simp [lv_event_add_all]
  | cons x ls ih =>
    intro list h
    have h1 := ih (lv_event_add list (some x.1) x.2.1 x.2.2)
      (by rw [lv_event_add_nonempty _ _ _ _ h]; simp)
    simp only [lv_event_add_all, List.foldl_cons] at h1 ⊢
    rw [h1, lv_event_add_nonempty _ _ _ _ h]
    simp [lv_dsc_of]

theorem lv_event_add_all_empty (ls : List (Nat × Nat × Nat)) (list : lv_event_list_t)
    (h : list.array = []) (hne : ls ≠ []) :
    lv_event_add_all list ls =
      { array := ls.map lv_dsc_of, flags := lv_event_flag_t.zero } := by
  obtain ⟨x, xs, rfl⟩ := List.exists_cons_of_ne_nil hne
  have h1 := lv_event_add_all_nonempty xs (lv_event_add list (some x.1) x.2.1 x.2.2)
    (by rw [lv_event_add_empty _ _ _ _ h]; simp)
  simp only [lv_event_add_all, List.foldl_cons] at h1 ⊢
  rw [h1, lv_event_add_empty _ _ _ _ h]
  simp [lv_dsc_of]

theorem lv_event_add_all_array (ls : List (Nat × Nat × Nat)) (list : lv_event_list_t)
    (h : list.array = []) : (lv_event_add_all list ls).array = ls.map lv_dsc_of := by
  by_cases hne : ls = []
  · subst hne; simp [lv_event_add_all, h]
  · rw [lv_event_add_all_empty ls list h hne]

/-- When every entry passes the filter test, the expected invocations are all
the entries that have a callback. -/
theorem lv_fired_from_all (ALL PREPROCESS code : Nat) (preprocess : Bool)
    (S : List lv_event_dsc_t) :
    ∀ (i : Nat),
      (∀ d ∈ S, d.cb ≠ none → lv_dsc_fires ALL PREPROCESS d code preprocess = true) →
      lv_fired_from ALL PREPROCESS code preprocess i S = lv_listing i S := by
  induction S with
  | nil => intro i _; rfl
  | cons d S ih =>
    intro i h
    have h2 := ih (i + 1) (fun x hx => h x (List.mem_cons_of_mem _ hx))
    cases hcb : d.cb with
    | none => simp [lv_fired_from, lv_listing, hcb, h2]
    | some f =>
      have hf := h d (List.mem_cons_self _ _) (by rw [hcb]; simp)
      simp [lv_fired_from, lv_listing, hcb, hf, h2]

theorem lv_listing_of (ls : List (Nat × Nat × Nat)) :
    ∀ (i : Nat), lv_listing i (ls.map lv_dsc_of) =
      (ls.enumFrom i).map (fun p => (p.1, p.2.1, p.2.2.2)) := by
  induction ls with
  | nil => intro i; rfl
  | cons x ls ih =>
    intro i
    simp [lv_listing, lv_dsc_of, List.enumFrom_cons, ih (i + 1)]

theorem lv_event_send_body_compacting (ALL PREPROCESS : Nat) (cbs : Nat → lv_event_cb_t)
    (list : lv_event_list_t) (e : lv_event_t) (preprocess : Bool) (w : lv_world_t)
    (calls : List lv_event_call_t)
    (hloop : lv_event_send_loop ALL PREPROCESS cbs preprocess list.array.length 0
      { list := lv_event_add_flag list LV_EVENT_FLAG_TRAVERSING, e := e } =
        some (false, w, calls))
    (ht : list.flags.traversing = false) (hr : w.list.flags.removed = true)
    (ha : w.list.flags.all_removed = false) :
    lv_event_send_body ALL PREPROCESS cbs list e preprocess =
      (lv_event_send_compact w.list.array).map fun array =>
        { res := LV_RESULT_OK,
          list := some { array := array, flags := ⟨false, false, false⟩ },
          e := w.e, calls := calls } := by
  have h : lv_array_size (lv_event_add_flag list LV_EVENT_FLAG_TRAVERSING).array =
      list.array.length := rfl
  simp only [lv_event_send_body, h, hloop]
  simp [lv_event_has_flag, LV_EVENT_FLAG_TRAVERSING, ht,
    LV_EVENT_FLAG_REMOVED, LV_EVENT_FLAG_ALL_REMOVED, lv_event_remove_flag, hr, ha]
  cases lv_event_send_compact w.list.array <;> rfl

/-- The invocations and the event a pass returns are those of its loop, and the
result is `LV_RESULT_INVALID` exactly when the loop returned. -/
theorem lv_event_send_body_calls (ALL PREPROCESS : Nat) (cbs : Nat → lv_event_cb_t)
    (list : lv_event_list_t) (e : lv_event_t) (preprocess : Bool) (ab : Bool) (w : lv_world_t)
    (calls : List lv_event_call_t) (out : lv_event_send_t)
    (hloop : lv_event_send_loop ALL PREPROCESS cbs preprocess list.array.length 0
      { list := lv_event_add_flag list LV_EVENT_FLAG_TRAVERSING, e := e } =
        some (ab, w, calls))
    (hsend : lv_event_send_body ALL PREPROCESS cbs list e preprocess = some out) :
    out.calls = calls ∧ out.e = w.e ∧
      (out.res = LV_RESULT_INVALID ↔ ab = true) := by
  cases ab with
  | true =>
    rw [lv_event_send_body_abort _ _ _ _ _ _ _ _ hloop] at hsend
    cases hsend
    simp
  | false =>
    cases ht : list.flags.traversing with
    | true =>
      rw [lv_event_send_body_nested _ _ _ _ _ _ _ _ hloop ht] at hsend
      cases hsend
      simp
    | false =>
      cases hr : w.list.flags.removed with
      | false =>
        rw [lv_event_send_body_plain _ _ _ _ _ _ _ _ hloop ht hr] at hsend
        cases hsend
        simp
      | true =>
        cases ha : w.list.flags.all_removed with
        | true =>
          rw [lv_event_send_body_clear _ _ _ _ _ _ _ _ hloop ht hr ha] at hsend
          cases hsend
          simp
        | false =>
          rw [lv_event_send_body_compacting _ _ _ _ _ _ _ _ hloop ht hr ha] at hsend
          obtain ⟨arr, -, harr⟩ := Option.map_eq_some'.mp hsend
          rw [← harr]
          simp

/-! ## The flag `stop_processing` during a pass -/

/-- Entered with `stop_processing` set, with callbacks that do not clear it, the
loop passes the flag set to every callback and leaves it set. -/
theorem lv_event_send_loop_stop_sticky (ALL PREPROCESS : Nat) (cbs : Nat → lv_event_cb_t)
    (preprocess : Bool)
    (hkeep : ∀ f w w1, cbs f w = some w1 → w.e.stop_processing = true →
      w1.e.stop_processing = true) (n : Nat) :
    ∀ (i : Nat) (w : lv_world_t) (r : Bool × lv_world_t × List lv_event_call_t),
      lv_event_send_loop ALL PREPROCESS cbs preprocess n i w = some r →
      w.e.stop_processing = true →
      (∀ c ∈ r.2.2, c.e.stop_processing = true) ∧ r.2.1.e.stop_processing = true := by
  induction n with
  | zero =>
    intro i w r h hw
    simp only [lv_event_send_loop, Option.some.injEq] at h
    subst h
    simp [hw]
  | succ n ih =>
    intro i w r h hw
    obtain ⟨d, _, hcase⟩ := lv_event_send_loop_inv _ _ _ _ _ _ _ _ h
    rcases hcase with ⟨_, hrec⟩ | ⟨f, w1, _, _, hcall, hcase⟩
    · exact ih (i + 1) w r hrec hw
    · have hw1 : w1.e.stop_processing = true := hkeep f _ w1 hcall hw
      rcases hcase with ⟨_, hr⟩ | ⟨_, r1, hrec, hr⟩
      · subst hr
        refine ⟨?_, hw1⟩
        intro c hc
        rw [List.mem_singleton.mp hc]
        exact hw
      · obtain ⟨h1, h2⟩ := ih (i + 1) w1 r1 hrec hw1
        subst hr
        refine ⟨?_, h2⟩
        intro c hc
        rcases List.mem_cons.mp hc with hc | hc
        · rw [hc]; exact hw
        · exact h1 c hc

/-- Once a callback has returned with `stop_processing` set, every later
callback of the loop receives the flag set and the loop leaves it set, when no
callback clears it: the loop itself never writes the flag. -/
theorem lv_event_send_loop_stop_after (ALL PREPROCESS : Nat) (cbs : Nat → lv_event_cb_t)
    (preprocess : Bool)
    (hkeep : ∀ f w w1, cbs f w = some w1 → w.e.stop_processing = true →
      w1.e.stop_processing = true) (n : Nat) :
    ∀ (i : Nat) (w : lv_world_t) (r : Bool × lv_world_t × List lv_event_call_t),
      lv_event_send_loop ALL PREPROCESS cbs preprocess n i w = some r →
      ∀ (pre : List lv_event_call_t) (c : lv_event_call_t) (post : List lv_event_call_t),
        r.2.2 = pre ++ c :: post → c.ret.stop_processing = true →
        (∀ c2 ∈ post, c2.e.stop_processing = true) ∧ r.2.1.e.stop_processing = true := by
  induction n with
  | zero =>
    intro i w r h pre c post hsplit _
    simp only [lv_event_send_loop, Option.some.injEq] at h
    subst h
    simp at hsplit
  | succ n ih =>
    intro i w r h pre c post hsplit hc
    obtain ⟨d, _, hcase⟩ := lv_event_send_loop_inv _ _ _ _ _ _ _ _ h
    rcases hcase with ⟨_, hrec⟩ | ⟨f, w1, _, _, hcall, hcase⟩
    · exact ih (i + 1) w r hrec pre c post hsplit hc
    · rcases hcase with ⟨_, hr⟩ | ⟨_, r1, hrec, hr⟩
      · subst hr
        cases pre with
        | nil =>
          simp only [List.nil_append, List.cons.injEq] at hsplit
          obtain ⟨h1, h2⟩ := hsplit
          subst h2
          subst h1
          exact ⟨by simp, hc⟩
        | cons a pre =>
          simp only [List.cons_append, List.cons.injEq] at hsplit
          have := hsplit.2
          simp at this
      · subst hr
        cases pre with
        | nil =>
          simp only [List.nil_append, List.cons.injEq] at hsplit
          obtain ⟨h1, h2⟩ := hsplit
          subst h2
          subst h1
          exact lv_event_send_loop_stop_sticky ALL PREPROCESS cbs preprocess hkeep n (i + 1)
            w1 r1 hrec hc
        | cons a pre =>
          simp only [List.cons_append, List.cons.injEq] at hsplit
          exact ih (i + 1) w1 r1 hrec pre c post hsplit.2 hc

/-- The loop of a pass that returned. -/
theorem lv_event_send_body_loop (ALL PREPROCESS : Nat) (cbs : Nat → lv_event_cb_t)
    (list : lv_event_list_t) (e : lv_event_t) (preprocess : Bool) (out : lv_event_send_t)
    (hsend : lv_event_send_body ALL PREPROCESS cbs list e preprocess = some out) :
    ∃ ab w, lv_event_send_loop ALL PREPROCESS cbs preprocess list.array.length 0
        { list := lv_event_add_flag list LV_EVENT_FLAG_TRAVERSING, e := e } =
          some (ab, w, out.calls) ∧ out.e = w.e ∧
        (out.res = LV_RESULT_INVALID ↔ ab = true) := by
  cases hloop : lv_event_send_loop ALL PREPROCESS cbs preprocess list.array.length 0
      { list := lv_event_add_flag list LV_EVENT_FLAG_TRAVERSING, e := e } with
  | none =>
    have hl : lv_array_size (lv_event_add_flag list LV_EVENT_FLAG_TRAVERSING).array =
        list.array.length := rfl
    simp only [lv_event_send_body, hl, hloop] at hsend
    cases hsend
  | some r =>
    obtain ⟨ab, w, calls⟩ := r
    obtain ⟨h1, h2, h3⟩ := lv_event_send_body_calls ALL PREPROCESS cbs list e preprocess ab w
      calls out hloop hsend
    exact ⟨ab, w, by rw [h1], h2, h3⟩

/-! ## A pass in which one callback modifies the registry -/

theorem lv_event_remove_valid (list : lv_event_list_t) (index : Nat) (d : lv_event_dsc_t)
    (h : list.array[index]? = some d) :
    lv_event_remove list index =
      some (true, { array := list.array.set index ⟨none, d.filter, d.user_data⟩,
                    flags := ⟨list.flags.traversing, true, list.flags.all_removed⟩ }) := by
  simp [lv_event_remove, lv_array_at_of_get _ _ _ h, lv_dsc_read_some, h, lv_event_add_flag,
    lv_event_flag_t.or, LV_EVENT_FLAG_REMOVED]

/-- The registry a pass leaves holds only entries the loop left, and not more of
them. -/
theorem lv_event_send_body_list (ALL PREPROCESS : Nat) (cbs : Nat → lv_event_cb_t)
    (list : lv_event_list_t) (e : lv_event_t) (preprocess : Bool) (ab : Bool) (w : lv_world_t)
    (calls : List lv_event_call_t) (out : lv_event_send_t)
    (hloop : lv_event_send_loop ALL PREPROCESS cbs preprocess list.array.length 0
      { list := lv_event_add_flag list LV_EVENT_FLAG_TRAVERSING, e := e } =
        some (ab, w, calls))
    (hsend : lv_event_send_body ALL PREPROCESS cbs list e preprocess = some out)
    (hsize : w.list.array.length < 2 ^ 32) :
    ∃ l3, out.list = some l3 ∧ (∀ d ∈ l3.array, d ∈ w.list.array) ∧
      l3.array.length ≤ w.list.array.length := by
  cases ab with
  | true =>
    rw [lv_event_send_body_abort _ _ _ _ _ _ _ _ hloop] at hsend
    cases hsend
    exact ⟨_, rfl, fun _ h => h, Nat.le_refl _⟩
  | false =>
    cases ht : list.flags.traversing with
    | true =>
      rw [lv_event_send_body_nested _ _ _ _ _ _ _ _ hloop ht] at hsend
      cases hsend
      exact ⟨_, rfl, fun _ h => h, Nat.le_refl _⟩
    | false =>
      cases hr : w.list.flags.removed with
      | false =>
        rw [lv_event_send_body_plain _ _ _ _ _ _ _ _ hloop ht hr] at hsend
        cases hsend
        exact ⟨_, rfl, fun _ h => h, Nat.le_refl _⟩
      | true =>
        cases ha : w.list.flags.all_removed with
        | true =>
          rw [lv_event_send_body_clear _ _ _ _ _ _ _ _ hloop ht hr ha] at hsend
          cases hsend
          exact ⟨_, rfl, fun _ h => by simp at h, Nat.zero_le _⟩
        | false =>
          rw [lv_event_send_body_compact _ _ _ _ _ _ _ _ hloop ht hr ha hsize] at hsend
          cases hsend
          exact ⟨_, rfl, fun _ h => (List.mem_filter.mp h).1, List.length_filter_le _ _⟩

theorem lv_array_mem_set (l : List lv_event_dsc_t) (i : Nat) (x d : lv_event_dsc_t)
    (h : d ∈ l.set i x) : d = x ∨ ∃ j, j ≠ i ∧ l[j]? = some d := by
  obtain ⟨j, hj⟩ := List.mem_iff_getElem?.mp h
  by_cases hji : j = i
  · left
    subst hji
    by_cases hlt : j < l.length
    · rw [List.getElem?_set_self hlt] at hj
      cases hj; rfl
    · rw [List.getElem?_eq_none (by simpa using hlt)] at hj
      cases hj
  · right
    rw [List.getElem?_set_ne (fun hc => hji hc.symm)] at hj
    exact ⟨j, hji, hj⟩

/-! ## The dispatch stack -/

theorem lv_event_chain_congr (ev1 ev : Nat → lv_event_t)
    (h : ∀ a, (ev1 a).prev = (ev a).prev) (ps : List Nat) :
    ∀ (head : Option Nat), lv_event_chain ev ps head → lv_event_chain ev1 ps head := by
  induction ps with
  | nil => intro head hc; exact hc
  | cons p ps ih =>
    intro head hc
    exact ⟨hc.1, by rw [h p]; exact ih _ hc.2⟩

theorem lv_event_marked_idem (target : Nat) (ev : lv_event_t) :
    lv_event_marked target (lv_event_marked target ev) = lv_event_marked target ev := by
  simp [lv_event_marked]

/-- One iteration of the loop of `_lv_event_mark_deleted` writes the marked
record at the address visited. -/
theorem lv_event_mark_deleted_step (target : Nat) (events : Nat → lv_event_t) (p : Nat) :
    (if (events p).original_target = target ∨ (events p).current_target = target then
        fun a => if a = p then { events p with deleted := true } else events a
      else events) =
      fun a => if a = p then lv_event_marked target (events p) else events a := by
  funext a
  by_cases hc : (events p).original_target = target ∨ (events p).current_target = target
  · simp only [hc, if_true, lv_event_marked, decide_True, Bool.or_true]
  · simp only [hc, if_false, lv_event_marked, decide_False, Bool.or_false]
    by_cases ha : a = p
    · simp [ha]
    · simp [ha]

/-- On a finite chain the loop of `_lv_event_mark_deleted` ends, given at least
as many iterations as the chain has records, and marks exactly the records of
the chain. -/
theorem lv_event_mark_deleted_loop_spec (target : Nat) (ps : List Nat) :
    ∀ (fuel : Nat) (events : Nat → lv_event_t) (head : Option Nat),
      lv_event_chain events ps head → ps.length ≤ fuel →
      _lv_event_mark_deleted_loop target fuel events head =
        some (fun a => if a ∈ ps then lv_event_marked target (events a) else events a) := by
  induction ps with
  | nil =>
    intro fuel events head hc _
    have hh : head = none := hc
    subst hh
    cases fuel <;> simp [_lv_event_mark_deleted_loop]
  | cons p ps ih =>
    intro fuel events head hc hfuel
    obtain ⟨hh, hrest⟩ := hc
    subst hh
    cases fuel with
    | zero => simp at hfuel
    | succ fuel =>
      simp only [_lv_event_mark_deleted_loop, lv_event_mark_deleted_step]
      have hprev : ∀ a, ((fun a => if a = p then lv_event_marked target (events p)
          else events a) a).prev = (events a).prev := by
        intro a
        by_cases ha : a = p
        · simp [ha, lv_event_marked]
        · simp [ha]
      have hchain := lv_event_chain_congr _ events hprev ps _ hrest
      have hp : (if True then lv_event_marked target (events p) else events p).prev =
          (events p).prev := by simp [lv_event_marked]
      rw [hp, ih fuel _ _ hchain (by simpa using hfuel)]
      congr 1
      funext a
      by_cases ha : a = p
      · subst ha
        by_cases hm : a ∈ ps
        · simp [hm, lv_event_marked_idem]
        · simp [hm]
      · by_cases hm : a ∈ ps
        · simp [ha, hm]
        · simp [ha, hm]

/-- A nested sequence of paired calls on records of their own restores the head
and leaves every record it does not push as it was. -/
theorem lv_event_nest_run_spec (nest : lv_event_nest) :
    ∀ (g : lv_global_t), nest.fresh →
      ∃ g1, nest.run g = some g1 ∧ g1.event_header = g.event_header ∧
        ∀ a, a ∉ nest.pushed → g1.events a = g.events a := by
  induction nest with
  | done =>
    intro g _
    exact ⟨g, rfl, rfl, fun _ _ => rfl⟩
  | scope e inner rest ihi ihr =>
    intro g hf
    obtain ⟨he, hfi, hfr⟩ := hf
    obtain ⟨g2, hrun2, hh2, hev2⟩ := ihi
      { g with
        events := fun a => if a = e then { g.events e with prev := g.event_header }
                           else g.events a,
        event_header := some e } hfi
    obtain ⟨g4, hrun4, hh4, hev4⟩ := ihr { g2 with event_header := (g2.events e).prev } hfr
    refine ⟨g4, ?_, ?_, ?_⟩
    · simp only [lv_event_nest.run, _lv_event_push, hrun2, _lv_event_pop, hrun4]
    · rw [hh4]
      simp only
      rw [hev2 e he]
      simp
    · intro a ha
      simp only [lv_event_nest.pushed, List.mem_cons, List.mem_append, not_or] at ha
      rw [hev4 a ha.2.2]
      simp only
      rw [hev2 a ha.2.1]
      simp [ha.1]

/-! ## The category counter -/

theorem lv_event_register_ids_spec (k : Nat) :
    ∀ (g : lv_global_t), g.event_last_register_id + k < 2 ^ 32 →
      (lv_event_register_ids k g).1 =
          (List.range' (g.event_last_register_id + 1) k) ∧
        (lv_event_register_ids k g).2.event_last_register_id =
          g.event_last_register_id + k := by
  induction k with
  | zero => intro g _; simp [lv_event_register_ids]
  | succ k ih =>
    intro g hk
    have hmod : (g.event_last_register_id + 1) % 2 ^ 32 = g.event_last_register_id + 1 :=
      Nat.mod_eq_of_lt (by omega)
    have h := ih (lv_event_register_id g).2 (by
      simp only [lv_event_register_id, hmod]; omega)
    simp only [lv_event_register_id, hmod] at h
    simp only [lv_event_register_ids, lv_event_register_id, hmod, h.1, h.2,
      List.range'_succ]
    exact ⟨trivial, by omega⟩

/-! ## Passes that do not compact -/

theorem lv_event_add_flag_traversing (list : lv_event_list_t)
    (ht : list.flags.traversing = true) :
    lv_event_add_flag list LV_EVENT_FLAG_TRAVERSING = list := by
  obtain ⟨array, ⟨t, r, a⟩⟩ := list
  simp only at ht
  subst ht
  simp [lv_event_add_flag, lv_event_flag_t.or, LV_EVENT_FLAG_TRAVERSING]

/-- A pass entered with TRAVERSING set, or with HAS_REMOVED clear, with
callbacks that do not modify the registry, returns and leaves the array as it
was. -/
theorem lv_event_send_array_kept (ALL PREPROCESS : Nat) (cbs : Nat → lv_event_cb_t)
    (list : lv_event_list_t) (e : lv_event_t) (preprocess : Bool)
    (hcb : ∀ f, lv_cb_keeps_registry (cbs f))
    (hflags : list.flags.traversing = true ∨ list.flags.removed = false) :
    ∃ out l1, lv_event_send ALL PREPROCESS cbs (some list) e preprocess = some out ∧
      out.list = some l1 ∧ l1.array = list.array := by
  obtain ⟨r, hloop, hlist⟩ := lv_event_send_loop_keeps_all ALL PREPROCESS cbs preprocess
    { list := lv_event_add_flag list LV_EVENT_FLAG_TRAVERSING, e := e }
    (fun _ _ f _ => hcb f)
  obtain ⟨ab, w, calls⟩ := r
  dsimp only at hlist
  have harr : w.list.array = list.array := by rw [hlist]; rfl
  rw [lv_event_send_some]
  cases ab with
  | true => exact ⟨_, _, lv_event_send_body_abort _ _ _ _ _ _ _ _ hloop, rfl, harr⟩
  | false =>
    cases ht : list.flags.traversing with
    | true => exact ⟨_, _, lv_event_send_body_nested _ _ _ _ _ _ _ _ hloop ht, rfl, harr⟩
    | false =>
      have hr : w.list.flags.removed = false := by
        rcases hflags with h | h
        · rw [ht] at h; cases h
        · rw [hlist]
          simp [lv_event_add_flag, lv_event_flag_t.or, LV_EVENT_FLAG_TRAVERSING, h]
      exact ⟨_, _, lv_event_send_body_plain _ _ _ _ _ _ _ _ hloop ht hr, rfl, harr⟩

/-! ## Claims -/

/-- C1. Compaction keeps exactly the survivors in order: on a registry with
TRAVERSING clear, HAS_REMOVED set and ALL_REMOVED clear, whose callbacks do not
modify the registry, `lv_event_send` returns; it finishes its pass (result
`LV_RESULT_OK`) whenever no callback returns with the event deleted; and when it
finishes its pass the entry sequence is the one before with every entry whose
callback is empty deleted (the others unchanged, in order), and the count is the
number of entries that had a callback. -/
theorem lv_event_send_compaction_survivors (ALL PREPROCESS : Nat) (cbs : Nat → lv_event_cb_t)
    (list : lv_event_list_t) (e : lv_event_t) (preprocess : Bool)
    (hsize : lv_event_get_count list < 2 ^ 32)
    (ht : lv_event_has_flag list LV_EVENT_FLAG_TRAVERSING = false)
    (hr : lv_event_has_flag list LV_EVENT_FLAG_REMOVED = true)
    (ha : lv_event_has_flag list LV_EVENT_FLAG_ALL_REMOVED = false)
    (hcb : ∀ d ∈ list.array, ∀ f, d.cb = some f → lv_cb_keeps_registry (cbs f)) :
    ∃ out, lv_event_send ALL PREPROCESS cbs (some list) e preprocess = some out ∧
      ((∀ c ∈ out.calls, c.ret.deleted = false) → out.res = LV_RESULT_OK) ∧
      (out.res = LV_RESULT_OK →
        ∃ l1, out.list = some l1 ∧
          l1.array = list.array.filter (fun d => d.cb.isSome) ∧
          lv_event_get_count l1 = list.array.countP (fun d => d.cb.isSome)) := by
  simp only [lv_event_has_flag, LV_EVENT_FLAG_TRAVERSING, LV_EVENT_FLAG_REMOVED,
    LV_EVENT_FLAG_ALL_REMOVED, Bool.and_true, Bool.and_false, Bool.or_false,
    Bool.false_or] at ht hr ha
  obtain ⟨r, hloop, hlist⟩ := lv_event_send_loop_keeps_all ALL PREPROCESS cbs preprocess
    { list := lv_event_add_flag list LV_EVENT_FLAG_TRAVERSING, e := e } hcb
  obtain ⟨ab, w, calls⟩ := r
  have habort := (lv_event_send_loop_abort _ _ _ _ _ _ _ _ hloop).2
  dsimp only at hlist habort
  rw [lv_event_send_some]
  cases ab with
  | true =>
    refine ⟨_, lv_event_send_body_abort _ _ _ _ _ _ _ _ hloop, ?_, ?_⟩
    · intro hall
      obtain ⟨c, hc, hca⟩ := habort rfl
      have := hall c hc
      simp [lv_event_aborts, this] at hca
    · intro h; cases h
  | false =>
    have hr1 : w.list.flags.removed = true := by
      rw [hlist]; simp [lv_event_add_flag, lv_event_flag_t.or, hr]
    have ha1 : w.list.flags.all_removed = false := by
      rw [hlist]; simp [lv_event_add_flag, lv_event_flag_t.or, ha, LV_EVENT_FLAG_TRAVERSING]
    have harr : w.list.array = list.array := by rw [hlist]; rfl
    have hs1 : w.list.array.length < 2 ^ 32 := by rw [harr]; exact hsize
    refine ⟨_, lv_event_send_body_compact _ _ _ _ _ _ _ _ hloop ht hr1 ha1 hs1, ?_, ?_⟩
    · intro _; rfl
    · intro _
      refine ⟨_, rfl, by rw [harr], ?_⟩
      simp only [lv_event_get_count, lv_array_size, harr, List.countP_eq_length_filter]

/-- Witness for C1: a registry with two tombstones among four entries. -/
theorem lv_event_send_compaction_survivors_witness :
    ∃ out, lv_event_send 0 0x8000 lv_sample_idle (some lv_sample_holes) lv_sample_event
        false = some out ∧
      ((∀ c ∈ out.calls, c.ret.deleted = false) → out.res = LV_RESULT_OK) ∧
      (out.res = LV_RESULT_OK →
        ∃ l1, out.list = some l1 ∧
          l1.array = lv_sample_holes.array.filter (fun d => d.cb.isSome) ∧
          lv_event_get_count l1 = lv_sample_holes.array.countP (fun d => d.cb.isSome)) :=
  lv_event_send_compaction_survivors 0 0x8000 lv_sample_idle lv_sample_holes lv_sample_event
    false (by decide) (by decide) (by decide) (by decide)
    (fun _ _ _ _ w => ⟨w, rfl, rfl⟩)

/-- C2, counterexample. First, an event already marked deleted when the pass
starts, two wildcard listeners and callbacks that do nothing: the entry at index
1 has a callback, the requested phase, and the wildcard category, so it passes
the filter test, yet the pass returns `LV_RESULT_INVALID` after the first
listener and does not invoke it.  Second, a fresh event of category 5 and three
listeners of category 5, the second of which writes category 6 into the event
and touches neither the registry nor the flags: the third listener is not
invoked.  Each list gives index, function and bound user data of the invocations
made. -/
theorem lv_event_send_filter_correct_counterexample :
    (lv_dsc_fires 0 0x8000 ⟨some 2, 0, 20⟩ lv_sample_deleted_event.code false = true ∧
      (lv_event_send 0 0x8000 lv_sample_idle (some lv_sample_pair) lv_sample_deleted_event
          false).map (fun o => (o.res, o.calls.map lv_event_call_t.key)) =
        some (LV_RESULT_INVALID, [(0, 1, 10)])) ∧
    (lv_dsc_fires 0 0x8000 ⟨some 2, 5, 20⟩ lv_sample_event.code false = true ∧
      (lv_event_send 0 0x8000 lv_sample_recoder (some lv_sample_triple) lv_sample_event
          false).map (fun o => (o.res, o.calls.map lv_event_call_t.key)) =
        some (LV_RESULT_OK, [(0, 7, 70), (1, 1, 10)])) := by
  decide

/-- C2, amended. Filter correctness: in a pass whose callbacks leave the
registry, the flags and the category of the event untouched, on an event that is
not already marked deleted when the pass starts, `lv_event_send` returns, and
the entry at index `k` is invoked if and only if its callback is not empty, its
PREPROCESS bit equals the requested phase, and its filter with the PREPROCESS
bit cleared is `LV_EVENT_ALL` or the category of the event. -/
theorem lv_event_send_filter_correct (ALL PREPROCESS : Nat) (cbs : Nat → lv_event_cb_t)
    (list : lv_event_list_t) (e : lv_event_t) (preprocess : Bool) (k : Nat)
    (d : lv_event_dsc_t)
    (hsize : lv_event_get_count list < 2 ^ 32)
    (hcb : ∀ x ∈ list.array, ∀ f, x.cb = some f → lv_cb_passive (cbs f))
    (hdel : e.deleted = false)
    (hk : list.array[k]? = some d) :
    ∃ out, lv_event_send ALL PREPROCESS cbs (some list) e preprocess = some out ∧
      ((∃ c ∈ out.calls, c.index = k) ↔
        (d.cb ≠ none ∧ lv_dsc_is_preprocessed PREPROCESS d = preprocess ∧
          (lv_dsc_filter_code PREPROCESS d = ALL ∨
            lv_dsc_filter_code PREPROCESS d = e.code))) := by
  obtain ⟨w, calls, hloop, hlist, -, -, -, hcalls⟩ :=
    lv_event_send_loop_passive_all ALL PREPROCESS cbs preprocess
      { list := lv_event_add_flag list LV_EVENT_FLAG_TRAVERSING, e := e } hcb
      (lv_event_aborts_of_not_deleted e hdel)
  have hs1 : w.list.array.length < 2 ^ 32 := by rw [hlist]; exact hsize
  obtain ⟨l1, hbody⟩ :=
    lv_event_send_body_ok ALL PREPROCESS cbs list e preprocess w calls hloop hs1
  refine ⟨_, hbody, ?_⟩
  dsimp only at hcalls ⊢
  rw [← lv_dsc_fires_iff]
  have hidx := lv_fired_from_index ALL PREPROCESS e.code preprocess list.array 0 k
  have harr : (lv_event_add_flag list LV_EVENT_FLAG_TRAVERSING).array = list.array := rfl
  rw [harr] at hcalls
  rw [← hcalls] at hidx
  constructor
  · rintro ⟨c, hc, hck⟩
    obtain ⟨d1, -, hd1, hf⟩ := hidx.mp ⟨c.key, List.mem_map_of_mem _ hc, hck⟩
    rw [Nat.sub_zero, hk] at hd1
    cases hd1
    exact hf
  · intro hf
    obtain ⟨x, hx, hxk⟩ := hidx.mpr ⟨d, Nat.zero_le _, by rw [Nat.sub_zero]; exact hk, hf⟩
    obtain ⟨c, hc, rfl⟩ := List.mem_map.mp hx
    exact ⟨c, hc, hxk⟩

/-- Witness for C2, amended: the wildcard entry registered for the preprocess phase, in a
pass of the preprocess phase. -/
theorem lv_event_send_filter_correct_witness :
    ∃ out, lv_event_send 0 0x8000 lv_sample_idle (some lv_sample_mixed) lv_sample_event
        true = some out ∧
      ((∃ c ∈ out.calls, c.index = 1) ↔
        ((⟨some 2, 0x8000, 11⟩ : lv_event_dsc_t).cb ≠ none ∧
          lv_dsc_is_preprocessed 0x8000 ⟨some 2, 0x8000, 11⟩ = true ∧
          (lv_dsc_filter_code 0x8000 ⟨some 2, 0x8000, 11⟩ = 0 ∨
            lv_dsc_filter_code 0x8000 ⟨some 2, 0x8000, 11⟩ = lv_sample_event.code))) :=
  lv_event_send_filter_correct 0 0x8000 lv_sample_idle lv_sample_mixed lv_sample_event true 1
    ⟨some 2, 0x8000, 11⟩ (by decide)
    (fun _ _ _ _ => ⟨fun w => ⟨w, rfl, rfl⟩,
      fun _ _ h => by cases h; exact ⟨rfl, rfl, rfl⟩, fun _ _ h => by cases h; rfl⟩)
    rfl rfl

/-- C3, counterexample. Three listeners added in order to an empty registry, all
matching an event of category 5 in the normal phase.  First, with callbacks that
do nothing and the event already marked deleted when the pass starts, only the
first listener is invoked and the result is `LV_RESULT_INVALID`.  Second, with a
fresh event and a second listener that writes category 6 into the event (it
touches neither the registry nor the flags), the third listener is not invoked.
Each list gives index, function and bound user data of the invocations made. -/
theorem lv_event_send_order_preserved_counterexample :
    ((lv_event_send 0 0x8000 lv_sample_idle
        (some (lv_event_add_all ⟨[], lv_event_flag_t.zero⟩
          [(1, 5, 10), (2, 0, 20), (3, 5, 30)]))
        lv_sample_deleted_event false).map
      (fun o => (o.res, o.calls.map lv_event_call_t.key)) =
      some (LV_RESULT_INVALID, [(0, 1, 10)])) ∧
    ((lv_event_send 0 0x8000 lv_sample_recoder
        (some (lv_event_add_all ⟨[], lv_event_flag_t.zero⟩
          [(7, 5, 70), (1, 5, 10), (2, 5, 20)]))
        lv_sample_event false).map
      (fun o => (o.res, o.calls.map lv_event_call_t.key)) =
      some (LV_RESULT_OK, [(0, 7, 70), (1, 1, 10)])) := by
  decide

/-- C3, amended. Order preservation: for listeners `ls` added in that order with
`lv_event_add` to an empty registry, all with a filter matching the event and
the phase and with callbacks that leave the registry, the flags and the category
of the event untouched, a pass on an event not already marked deleted when it
starts returns `LV_RESULT_OK` and invokes each listener exactly once, in the
order of `ls` (the invocation number `k` is for entry `k`), each time with
`user_data` set to the user data stored for that listener. -/
theorem lv_event_send_order_preserved (ALL PREPROCESS : Nat) (cbs : Nat → lv_event_cb_t)
    (list : lv_event_list_t) (ls : List (Nat × Nat × Nat)) (e : lv_event_t)
    (preprocess : Bool)
    (hempty : lv_event_get_count list = 0)
    (hsize : ls.length < 2 ^ 32)
    (hmatch : ∀ x ∈ ls, lv_dsc_is_preprocessed PREPROCESS (lv_dsc_of x) = preprocess ∧
      (lv_dsc_filter_code PREPROCESS (lv_dsc_of x) = ALL ∨
        lv_dsc_filter_code PREPROCESS (lv_dsc_of x) = e.code))
    (hcb : ∀ x ∈ ls, lv_cb_passive (cbs x.1))
    (hdel : e.deleted = false) :
    ∃ out, lv_event_send ALL PREPROCESS cbs (some (lv_event_add_all list ls)) e preprocess =
        some out ∧
      out.res = LV_RESULT_OK ∧
      out.calls.map (fun c => (c.index, c.cb, c.e.user_data)) =
        ls.enum.map (fun p => (p.1, p.2.1, p.2.2.2)) := by
  have hnil : list.array = [] := List.length_eq_zero.mp hempty
  have harr := lv_event_add_all_array ls list hnil
  have hcb1 : ∀ d ∈ (lv_event_add_flag (lv_event_add_all list ls)
      LV_EVENT_FLAG_TRAVERSING).array, ∀ f, d.cb = some f → lv_cb_passive (cbs f) := by
    intro d hd f hf
    have hd1 : d ∈ ls.map lv_dsc_of := by rw [← harr]; exact hd
    obtain ⟨x, hx, rfl⟩ := List.mem_map.mp hd1
    simp only [lv_dsc_of, Option.some.injEq] at hf
    rw [← hf]
    exact hcb x hx
  obtain ⟨w, calls, hloop, hlist, -, -, -, hcalls⟩ :=
    lv_event_send_loop_passive_all ALL PREPROCESS cbs preprocess
      { list := lv_event_add_flag (lv_event_add_all list ls) LV_EVENT_FLAG_TRAVERSING, e := e }
      hcb1 (lv_event_aborts_of_not_deleted e hdel)
  have harr1 : (lv_event_add_flag (lv_event_add_all list ls)
      LV_EVENT_FLAG_TRAVERSING).array = ls.map lv_dsc_of := harr
  have hs1 : w.list.array.length < 2 ^ 32 := by
    rw [hlist]
    dsimp only
    rw [harr1, List.length_map]
    exact hsize
  obtain ⟨l1, hbody⟩ := lv_event_send_body_ok ALL PREPROCESS cbs (lv_event_add_all list ls) e
    preprocess w calls hloop hs1
  refine ⟨_, hbody, rfl, ?_⟩
  dsimp only at hcalls ⊢
  rw [harr1, lv_fired_from_all, lv_listing_of] at hcalls
  · exact hcalls
  · intro d hd _
    obtain ⟨x, hx, rfl⟩ := List.mem_map.mp hd
    rw [lv_dsc_fires_iff]
    exact ⟨by simp [lv_dsc_of], hmatch x hx⟩

/-- Witness for C3, amended: three listeners, categories 5, wildcard and 5, event of
category 5. -/
theorem lv_event_send_order_preserved_witness :
    ∃ out, lv_event_send 0 0x8000 lv_sample_idle
        (some (lv_event_add_all ⟨[], ⟨false, true, true⟩⟩ [(1, 5, 10), (2, 0, 20), (3, 5, 30)]))
        lv_sample_event false = some out ∧
      out.res = LV_RESULT_OK ∧
      out.calls.map (fun c => (c.index, c.cb, c.e.user_data)) =
        [(1, 5, 10), (2, 0, 20), (3, 5, 30)].enum.map (fun p => (p.1, p.2.1, p.2.2.2)) :=
  lv_event_send_order_preserved 0 0x8000 lv_sample_idle ⟨[], ⟨false, true, true⟩⟩
    [(1, 5, 10), (2, 0, 20), (3, 5, 30)] lv_sample_event false rfl (by decide) (by decide)
    (fun _ _ => ⟨fun w => ⟨w, rfl, rfl⟩,
      fun _ _ h => by cases h; exact ⟨rfl, rfl, rfl⟩, fun _ _ h => by cases h; rfl⟩)
    rfl

/-- C4. Tombstone invisibility: for a valid index, `lv_event_remove` succeeds
and leaves the entry at that index with an empty callback.  First, in every pass
started while that entry is still the tombstone (right after the removal or
later, nested or outermost, before the compaction that deletes the entry), with
callbacks that, called during a traversal, do not write a callback back into
that entry, no invocation is made for the entry at that index.  Second, when the
function `f0` that was stored in the entry is the callback of no other entry, it
is registered nowhere after the removal, and every pass started on a registry
where it is registered nowhere, with callbacks that do not register it, does not
invoke `f0` and leaves a registry where it is registered nowhere, so that the
same holds of every later pass, before and after compaction. -/
theorem lv_event_send_tombstone_invisible (list : lv_event_list_t) (index : Nat)
    (hidx : index < lv_event_get_count list) (hsize : lv_event_get_count list < 2 ^ 32) :
    ∃ list1 d0, lv_event_remove list index = some (true, list1) ∧
      list.array[index]? = some d0 ∧ lv_dsc_tomb_at list1 index ∧
      (∀ (ALL PREPROCESS : Nat) (cbs : Nat → lv_event_cb_t) (list2 : lv_event_list_t)
        (e : lv_event_t) (preprocess : Bool) (out : lv_event_send_t),
        lv_dsc_tomb_at list2 index →
        (∀ f w w1, cbs f w = some w1 → w.list.flags.traversing = true →
          lv_dsc_tomb_at w.list index →
          w1.list.flags.traversing = true ∧ lv_dsc_tomb_at w1.list index) →
        lv_event_send ALL PREPROCESS cbs (some list2) e preprocess = some out →
        ∀ c ∈ out.calls, c.index ≠ index) ∧
      (∀ f0, d0.cb = some f0 →
        (∀ j d, j ≠ index → list.array[j]? = some d → d.cb ≠ some f0) →
        lv_cb_unregistered f0 list1 ∧
        ∀ (ALL PREPROCESS : Nat) (cbs : Nat → lv_event_cb_t) (list2 : lv_event_list_t)
          (e : lv_event_t) (preprocess : Bool) (out : lv_event_send_t),
          lv_cb_unregistered f0 list2 →
          (∀ f w w1, cbs f w = some w1 → lv_cb_unregistered f0 w.list →
            lv_cb_unregistered f0 w1.list) →
          lv_event_send ALL PREPROCESS cbs (some list2) e preprocess = some out →
          (∀ c ∈ out.calls, c.cb ≠ f0) ∧
            ∃ list3, out.list = some list3 ∧ lv_cb_unregistered f0 list3) := by
  have hlt : index < list.array.length := hidx
  have hget : list.array[index]? = some list.array[index] := List.getElem?_eq_getElem hlt
  refine ⟨_, list.array[index], lv_event_remove_valid list index _ hget, hget, ?_, ?_, ?_⟩
  · exact ⟨⟨none, list.array[index].filter, list.array[index].user_data⟩,
      by simp [hlt], rfl⟩
  · intro ALL PREPROCESS cbs list2 e preprocess out htomb hkeep hsend c hc hci
    rw [lv_event_send_some] at hsend
    obtain ⟨ab, w, hloop, -, -⟩ := lv_event_send_body_loop _ _ _ _ _ _ _ hsend
    have hinv := lv_event_send_loop_invariant ALL PREPROCESS cbs preprocess
      (fun l => l.flags.traversing = true ∧ lv_dsc_tomb_at l index)
      (fun f w w1 h hw => hkeep f w w1 h hw.1 hw.2) _ _ _ _ hloop
      ⟨by simp [lv_event_add_flag, lv_event_flag_t.or, LV_EVENT_FLAG_TRAVERSING], htomb⟩
    obtain ⟨l, d, ⟨-, d1, hd1, hd1c⟩, hd, hdc⟩ := hinv.2 c hc
    rw [hci, hd1] at hd
    cases hd
    rw [hd1c] at hdc
    cases hdc
  · intro f0 _ huniq
    refine ⟨⟨?_, ?_⟩, ?_⟩
    · intro d hd
      rcases lv_array_mem_set _ _ _ _ hd with h | ⟨j, hj, hjd⟩
      · rw [h]; simp
      · exact huniq j d hj hjd
    · simpa [lv_event_get_count, lv_array_size] using hsize
    · intro ALL PREPROCESS cbs list2 e preprocess out hun hkeep hsend
      rw [lv_event_send_some] at hsend
      obtain ⟨ab, w, hloop, -, -⟩ := lv_event_send_body_loop _ _ _ _ _ _ _ hsend
      have hinv := lv_event_send_loop_invariant ALL PREPROCESS cbs preprocess
        (fun l => lv_cb_unregistered f0 l) hkeep _ _ _ _ hloop hun
      constructor
      · intro c hc hcf
        obtain ⟨l, d, hl, hd, hdc⟩ := hinv.2 c hc
        have hmem : d ∈ l.array := List.getElem?_mem hd
        exact hl.1 d hmem (by rw [hdc, hcf])
      · obtain ⟨l3, hl3, hsub, hlen⟩ := lv_event_send_body_list ALL PREPROCESS cbs list2 e
          preprocess ab w out.calls out hloop hsend hinv.1.2
        refine ⟨l3, hl3, fun d hd => hinv.1.1 d (hsub d hd), ?_⟩
        have := hinv.1.2
        simp only [lv_event_get_count, lv_array_size] at this ⊢
        omega

/-- Witness for C4: removal of the first of three listeners. -/
theorem lv_event_send_tombstone_invisible_witness :
    ∃ list1 d0, lv_event_remove lv_sample_mixed 0 = some (true, list1) ∧
      lv_sample_mixed.array[0]? = some d0 ∧ lv_dsc_tomb_at list1 0 ∧
      (∀ (ALL PREPROCESS : Nat) (cbs : Nat → lv_event_cb_t) (list2 : lv_event_list_t)
        (e : lv_event_t) (preprocess : Bool) (out : lv_event_send_t),
        lv_dsc_tomb_at list2 0 →
        (∀ f w w1, cbs f w = some w1 → w.list.flags.traversing = true →
          lv_dsc_tomb_at w.list 0 →
          w1.list.flags.traversing = true ∧ lv_dsc_tomb_at w1.list 0) →
        lv_event_send ALL PREPROCESS cbs (some list2) e preprocess = some out →
        ∀ c ∈ out.calls, c.index ≠ 0) ∧
      (∀ f0, d0.cb = some f0 →
        (∀ j d, j ≠ 0 → lv_sample_mixed.array[j]? = some d → d.cb ≠ some f0) →
        lv_cb_unregistered f0 list1 ∧
        ∀ (ALL PREPROCESS : Nat) (cbs : Nat → lv_event_cb_t) (list2 : lv_event_list_t)
          (e : lv_event_t) (preprocess : Bool) (out : lv_event_send_t),
          lv_cb_unregistered f0 list2 →
          (∀ f w w1, cbs f w = some w1 → lv_cb_unregistered f0 w.list →
            lv_cb_unregistered f0 w1.list) →
          lv_event_send ALL PREPROCESS cbs (some list2) e preprocess = some out →
          (∀ c ∈ out.calls, c.cb ≠ f0) ∧
            ∃ list3, out.list = some list3 ∧ lv_cb_unregistered f0 list3) :=
  lv_event_send_tombstone_invisible lv_sample_mixed 0 (by decide) (by decide)

/-- C5. Snapshot bound: whatever the callbacks do, the invocations a pass makes
are for indices below the count the registry had when the pass started, in
strictly increasing order, so there are at most that many; and the entry that
`lv_event_add` appends to the registry as a callback finds it (its count not
below the count at the start of the pass) is stored at an index for which the
pass makes no invocation. -/
theorem lv_event_send_snapshot_bound (ALL PREPROCESS : Nat) (cbs : Nat → lv_event_cb_t)
    (list : lv_event_list_t) (e : lv_event_t) (preprocess : Bool) (out : lv_event_send_t)
    (hsend : lv_event_send ALL PREPROCESS cbs (some list) e preprocess = some out) :
    out.calls.length ≤ lv_event_get_count list ∧
      (∀ c ∈ out.calls, c.index < lv_event_get_count list) ∧
      out.calls.Pairwise (fun a b => a.index < b.index) ∧
      ∀ (list2 : lv_event_list_t) (cb : Option Nat) (filter user_data : Nat),
        lv_event_get_count list ≤ lv_event_get_count list2 →
        (lv_event_add list2 cb filter user_data).array[lv_event_get_count list2]? =
            some ⟨cb, filter, user_data⟩ ∧
          ∀ c ∈ out.calls, c.index ≠ lv_event_get_count list2 := by
  rw [lv_event_send_some] at hsend
  cases hloop : lv_event_send_loop ALL PREPROCESS cbs preprocess list.array.length 0
      { list := lv_event_add_flag list LV_EVENT_FLAG_TRAVERSING, e := e } with
  | none =>
    have hl : lv_array_size (lv_event_add_flag list LV_EVENT_FLAG_TRAVERSING).array =
        list.array.length := rfl
    simp only [lv_event_send_body, hl, hloop] at hsend
    cases hsend
  | some r =>
    obtain ⟨ab, w, calls⟩ := r
    obtain ⟨hcalls, -, -⟩ := lv_event_send_body_calls ALL PREPROCESS cbs list e preprocess ab w
      calls out hloop hsend
    obtain ⟨h1, h2, h3⟩ := lv_event_send_loop_index _ _ _ _ _ _ _ _ hloop
    rw [← hcalls] at h1 h2 h3
    simp only [Nat.zero_add] at h1
    refine ⟨h3, fun c hc => (h1 c hc).2, h2, ?_⟩
    intro list2 cb filter user_data hle
    constructor
    · by_cases hnil : list2.array = []
      · rw [lv_event_add_empty _ _ _ _ hnil]
        simp [lv_event_get_count, lv_array_size, hnil]
      · rw [lv_event_add_nonempty _ _ _ _ hnil]
        simp [lv_event_get_count, lv_array_size]
    · intro c hc
      have := (h1 c hc).2
      simp only [lv_event_get_count, lv_array_size] at hle ⊢
      omega

/-- Witness for C5: a pass over three listeners, the first of which appends a
listener to the registry. -/
theorem lv_event_send_snapshot_bound_witness :
    (lv_sample_appended).calls.length ≤ lv_event_get_count lv_sample_mixed ∧
      (∀ c ∈ (lv_sample_appended).calls, c.index < lv_event_get_count lv_sample_mixed) ∧
      (lv_sample_appended).calls.Pairwise (fun a b => a.index < b.index) ∧
      ∀ (list2 : lv_event_list_t) (cb : Option Nat) (filter user_data : Nat),
        lv_event_get_count lv_sample_mixed ≤ lv_event_get_count list2 →
        (lv_event_add list2 cb filter user_data).array[lv_event_get_count list2]? =
            some ⟨cb, filter, user_data⟩ ∧
          ∀ c ∈ (lv_sample_appended).calls, c.index ≠ lv_event_get_count list2 :=
  lv_event_send_snapshot_bound 0 0x8000 lv_sample_adder lv_sample_mixed lv_sample_event false
    lv_sample_appended (by decide)

/-- C6, counterexample. The first of two wildcard listeners calls
`lv_event_stop_processing` and reports the target deleted: its callback returns
with `deleted` set (and `stop_processing` set), yet the second listener is
invoked and the result is `LV_RESULT_OK`.  The list gives, for each invocation,
index, function, and `deleted` and `stop_processing` at the return of the
callback. -/
theorem lv_event_send_abort_on_deletion_counterexample :
    (lv_event_send 0 0x8000 lv_sample_stop_delete (some lv_sample_pair) lv_sample_event
        false).map
      (fun o => (o.res, o.calls.map
        (fun c => (c.index, c.cb, c.ret.deleted, c.ret.stop_processing)))) =
      some (LV_RESULT_OK, [(0, 1, true, true), (1, 2, true, true)]) := by
  decide

/-- C6, amended. Abort on deletion: whatever the callbacks do, if the event has
`deleted` set and `stop_processing` clear when the callback of an invoked
listener returns, then `lv_event_send` returns `LV_RESULT_INVALID` and invokes
no further listener of that registry. -/
theorem lv_event_send_abort_on_deletion (ALL PREPROCESS : Nat) (cbs : Nat → lv_event_cb_t)
    (list : lv_event_list_t) (e : lv_event_t) (preprocess : Bool) (out : lv_event_send_t)
    (pre : List lv_event_call_t) (c : lv_event_call_t) (post : List lv_event_call_t)
    (hsend : lv_event_send ALL PREPROCESS cbs (some list) e preprocess = some out)
    (hsplit : out.calls = pre ++ c :: post)
    (hdel : c.ret.deleted = true) (hstop : c.ret.stop_processing = false) :
    out.res = LV_RESULT_INVALID ∧ post = [] := by
  rw [lv_event_send_some] at hsend
  obtain ⟨ab, w, hloop, -, hres⟩ := lv_event_send_body_loop _ _ _ _ _ _ _ hsend
  have h := (lv_event_send_loop_abort _ _ _ _ _ _ _ _ hloop).1 pre c post hsplit
    (by simp [lv_event_aborts, hdel, hstop])
  exact ⟨hres.mpr h.2, h.1⟩

/-- Witness for C6, amended: the first of two listeners reports the target
deleted. -/
theorem lv_event_send_abort_on_deletion_witness :
    lv_sample_deleted.res = LV_RESULT_INVALID ∧ ([] : List lv_event_call_t) = [] :=
  lv_event_send_abort_on_deletion 0 0x8000 lv_sample_deleter lv_sample_pair lv_sample_event
    false lv_sample_deleted []
    ⟨0, 1, { lv_sample_event with user_data := 10 },
      { lv_sample_event with user_data := 10, deleted := true }⟩ []
    (by decide) rfl rfl rfl

/-- C7, the code at the failing input. The first of two wildcard listeners calls
`lv_event_stop_processing`; the pass goes on and invokes the second listener,
which receives the event with `stop_processing` set.  The list gives, for each
invocation, index, function, and `stop_processing` as the callback received
it. -/
theorem lv_event_send_stop_processing_continues :
    (lv_event_send 0 0x8000 lv_sample_stopper (some lv_sample_pair) lv_sample_event
        false).map
      (fun o => (o.res, o.calls.map (fun c => (c.index, c.cb, c.e.stop_processing)))) =
      some (LV_RESULT_OK, [(0, 1, false), (1, 2, true)]) := by
  decide

/-- C8, counterexample. The second of three listeners calls
`lv_event_stop_processing`: the third listener is invoked with the flag still
set, and the flag is set when `lv_event_send` returns.  The result gives the
flag at the return of `lv_event_send` and, for each invocation, index, function,
and the flag as the callback received it and as it left it. -/
theorem lv_event_send_stop_processing_cleared_counterexample :
    (lv_event_send 0 0x8000 lv_sample_stopper (some lv_sample_triple) lv_sample_event
        false).map
      (fun o => (o.e.stop_processing, o.calls.map
        (fun c => (c.index, c.cb, c.e.stop_processing, c.ret.stop_processing)))) =
      some (true, [(0, 7, false, false), (1, 1, false, true), (2, 2, true, true)]) := by
  decide

/-- C8, amended. `lv_event_send` does not clear `stop_processing`: if the flag
is set when the callback of a listener returns and no later callback clears it,
every listener invoked later in the pass receives the event with the flag set,
and the flag is set when `lv_event_send` returns. -/
theorem lv_event_send_stop_processing_kept (ALL PREPROCESS : Nat) (cbs : Nat → lv_event_cb_t)
    (list : lv_event_list_t) (e : lv_event_t) (preprocess : Bool) (out : lv_event_send_t)
    (pre : List lv_event_call_t) (c : lv_event_call_t) (post : List lv_event_call_t)
    (hkeep : ∀ f w w1, cbs f w = some w1 → w.e.stop_processing = true →
      w1.e.stop_processing = true)
    (hsend : lv_event_send ALL PREPROCESS cbs (some list) e preprocess = some out)
    (hsplit : out.calls = pre ++ c :: post)
    (hstop : c.ret.stop_processing = true) :
    (∀ c2 ∈ post, c2.e.stop_processing = true) ∧ out.e.stop_processing = true := by
  rw [lv_event_send_some] at hsend
  obtain ⟨ab, w, hloop, he, -⟩ := lv_event_send_body_loop _ _ _ _ _ _ _ hsend
  have h := lv_event_send_loop_stop_after ALL PREPROCESS cbs preprocess hkeep _ _ _ _ hloop
    pre c post hsplit hstop
  rw [he]
  exact h

/-- Witness for C8, amended: the second of three listeners calls
`lv_event_stop_processing`. -/
theorem lv_event_send_stop_processing_kept_witness :
    (∀ c2 ∈ [(⟨2, 2, { lv_sample_event with user_data := 20, stop_processing := true },
        { lv_sample_event with user_data := 20, stop_processing := true }⟩ :
          lv_event_call_t)],
        c2.e.stop_processing = true) ∧
      lv_sample_stopped.e.stop_processing = true :=
  lv_event_send_stop_processing_kept 0 0x8000 lv_sample_stopper lv_sample_triple
    lv_sample_event false lv_sample_stopped
    [⟨0, 7, { lv_sample_event with user_data := 70 },
      { lv_sample_event with user_data := 70 }⟩]
    ⟨1, 1, { lv_sample_event with user_data := 10 },
      { lv_sample_event with user_data := 10, stop_processing := true }⟩
    [⟨2, 2, { lv_sample_event with user_data := 20, stop_processing := true },
      { lv_sample_event with user_data := 20, stop_processing := true }⟩]
    (by
      intro f w w1 h hw
      unfold lv_sample_stopper at h
      split at h
      · cases h; rfl
      · cases h; exact hw)
    (by decide) rfl rfl

/-- C11. Deletion marking: when the `prev` chain from the head of the dispatch
stack is finite (it visits the records at the addresses `ps` and ends), then
`_lv_event_mark_deleted(target)`, given at least as many iterations as the chain
has records, returns; every record of the chain, the innermost and every
enclosing one, is then the marked record (`deleted` is the old flag or "one of
its two targets is `target`", all other fields as before); a record of the chain
with neither target equal to `target` is unchanged; records outside the chain,
the head of the stack and the counter are unchanged. -/
theorem lv_event_mark_deleted_chain (g : lv_global_t) (target : Nat) (ps : List Nat)
    (fuel : Nat) (hchain : lv_event_chain g.events ps g.event_header)
    (hfuel : ps.length ≤ fuel) :
    ∃ g1, _lv_event_mark_deleted fuel g target = some g1 ∧
      g1.event_header = g.event_header ∧
      g1.event_last_register_id = g.event_last_register_id ∧
      (∀ a ∈ ps, g1.events a = lv_event_marked target (g.events a)) ∧
      (∀ a ∈ ps, (g.events a).original_target ≠ target →
        (g.events a).current_target ≠ target → g1.events a = g.events a) ∧
      (∀ a, a ∉ ps → g1.events a = g.events a) := by
  have h := lv_event_mark_deleted_loop_spec target ps fuel g.events g.event_header hchain hfuel
  refine ⟨lv_global_t.mk g.event_header g.event_last_register_id
    (fun a => if a ∈ ps then lv_event_marked target (g.events a) else g.events a),
    by simp only [_lv_event_mark_deleted, h, Option.map_some'], rfl, rfl, ?_, ?_, ?_⟩
  · intro a ha
    simp only [ha, if_true]
  · intro a ha h1 h2
    simp [ha, lv_event_marked, h1, h2]
  · intro a ha
    simp [ha]

/-- Witness for C11: a stack of two records, the target of the outer one is
reported deleted. -/
theorem lv_event_mark_deleted_chain_witness :
    ∃ g1, _lv_event_mark_deleted 2 lv_sample_global 30 = some g1 ∧
      g1.event_header = lv_sample_global.event_header ∧
      g1.event_last_register_id = lv_sample_global.event_last_register_id ∧
      (∀ a ∈ [4, 3], g1.events a = lv_event_marked 30 (lv_sample_global.events a)) ∧
      (∀ a ∈ [4, 3], (lv_sample_global.events a).original_target ≠ 30 →
        (lv_sample_global.events a).current_target ≠ 30 →
        g1.events a = lv_sample_global.events a) ∧
      (∀ a, a ∉ [4, 3] → g1.events a = lv_sample_global.events a) :=
  lv_event_mark_deleted_chain lv_sample_global 30 [4, 3] 2 ⟨rfl, rfl, rfl⟩ (by decide)

/-- C12, the code at the failing input. `lv_event_remove` with index 2 on a
registry of two entries: the pointer `lv_array_at` returns is `NULL` and the
function writes through it; no error is returned and there is no result. -/
theorem lv_event_remove_out_of_range :
    lv_event_get_count lv_sample_pair = 2 ∧ lv_event_get_dsc lv_sample_pair 2 = none ∧
      lv_event_remove lv_sample_pair 2 = none := by
  decide

/-- C13. Compacting a compact registry is a no-op: on a registry with TRAVERSING
clear, HAS_REMOVED set and ALL_REMOVED clear, with callbacks that do not modify
the registry, `lv_event_send` returns; when no entry is a tombstone (the empty
registry included) the entry sequence and the count it leaves are those at
entry; and, tombstones or not, a second pass on the registry the first pass
left returns and leaves the entries exactly as the first pass left them. -/
theorem lv_event_send_compact_noop (ALL PREPROCESS : Nat) (cbs : Nat → lv_event_cb_t)
    (list : lv_event_list_t) (e e2 : lv_event_t) (preprocess preprocess2 : Bool)
    (hsize : lv_event_get_count list < 2 ^ 32)
    (ht : lv_event_has_flag list LV_EVENT_FLAG_TRAVERSING = false)
    (hr : lv_event_has_flag list LV_EVENT_FLAG_REMOVED = true)
    (ha : lv_event_has_flag list LV_EVENT_FLAG_ALL_REMOVED = false)
    (hcb : ∀ f, lv_cb_keeps_registry (cbs f)) :
    ∃ out l1 out2 l2,
      lv_event_send ALL PREPROCESS cbs (some list) e preprocess = some out ∧
      out.list = some l1 ∧
      ((∀ d ∈ list.array, d.cb ≠ none) →
        l1.array = list.array ∧ lv_event_get_count l1 = lv_event_get_count list) ∧
      lv_event_send ALL PREPROCESS cbs (some l1) e2 preprocess2 = some out2 ∧
      out2.list = some l2 ∧ l2.array = l1.array := by
  simp only [lv_event_has_flag, LV_EVENT_FLAG_TRAVERSING, LV_EVENT_FLAG_REMOVED,
    LV_EVENT_FLAG_ALL_REMOVED, Bool.and_true, Bool.and_false, Bool.or_false,
    Bool.false_or] at ht hr ha
  obtain ⟨r, hloop, hlist⟩ := lv_event_send_loop_keeps_all ALL PREPROCESS cbs preprocess
    { list := lv_event_add_flag list LV_EVENT_FLAG_TRAVERSING, e := e }
    (fun _ _ f _ => hcb f)
  obtain ⟨ab, w, calls⟩ := r
  dsimp only at hlist
  have harr : w.list.array = list.array := by rw [hlist]; rfl
  rw [lv_event_send_some]
  cases ab with
  | true =>
    have hwt : w.list.flags.traversing = true := by
      rw [hlist]; simp [lv_event_add_flag, lv_event_flag_t.or, LV_EVENT_FLAG_TRAVERSING]
    obtain ⟨out2, l2, h2, hl2, harr2⟩ := lv_event_send_array_kept ALL PREPROCESS cbs w.list
      e2 preprocess2 hcb (Or.inl hwt)
    exact ⟨_, w.list, out2, l2, lv_event_send_body_abort _ _ _ _ _ _ _ _ hloop, rfl,
      fun _ => ⟨harr, by simp [lv_event_get_count, harr]⟩, h2, hl2, harr2⟩
  | false =>
    have hr1 : w.list.flags.removed = true := by
      rw [hlist]; simp [lv_event_add_flag, lv_event_flag_t.or, hr]
    have ha1 : w.list.flags.all_removed = false := by
      rw [hlist]; simp [lv_event_add_flag, lv_event_flag_t.or, ha, LV_EVENT_FLAG_TRAVERSING]
    have hs1 : w.list.array.length < 2 ^ 32 := by rw [harr]; exact hsize
    obtain ⟨out2, l2, h2, hl2, harr2⟩ := lv_event_send_array_kept ALL PREPROCESS cbs
      { array := w.list.array.filter (fun d => d.cb.isSome), flags := ⟨false, false, false⟩ }
      e2 preprocess2 hcb (Or.inr rfl)
    refine ⟨_, _, out2, l2, lv_event_send_body_compact _ _ _ _ _ _ _ _ hloop ht hr1 ha1 hs1,
      rfl, ?_, h2, hl2, harr2⟩
    intro hlive
    have hf : w.list.array.filter (fun d => d.cb.isSome) = list.array := by
      rw [harr]; exact lv_array_filter_live _ hlive
    exact ⟨hf, by simp only [lv_event_get_count, hf]⟩

/-- Witness for C13: a registry of three listeners with HAS_REMOVED set and no
tombstone. -/
theorem lv_event_send_compact_noop_witness :
    ∃ out l1 out2 l2,
      lv_event_send 0 0x8000 lv_sample_idle
        (some ⟨lv_sample_triple.array, ⟨false, true, false⟩⟩) lv_sample_event false =
          some out ∧
      out.list = some l1 ∧
      ((∀ d ∈ lv_sample_triple.array, d.cb ≠ none) →
        l1.array = lv_sample_triple.array ∧
          lv_event_get_count l1 =
            lv_event_get_count ⟨lv_sample_triple.array, ⟨false, true, false⟩⟩) ∧
      lv_event_send 0 0x8000 lv_sample_idle (some l1) lv_sample_event true = some out2 ∧
      out2.list = some l2 ∧ l2.array = l1.array :=
  lv_event_send_compact_noop 0 0x8000 lv_sample_idle
    ⟨lv_sample_triple.array, ⟨false, true, false⟩⟩ lv_sample_event lv_sample_event false true
    (by decide) (by decide) (by decide) (by decide) (fun _ w => ⟨w, rfl, rfl⟩)

/-- C14. Category allocator: as long as the counter stays below `2 ^ 32`, `k`
successive calls of `lv_event_register_id` return the identifiers `c + 1`, ...,
`c + k` for the counter `c` at the start, each the previous value of the counter
plus one, and store `c + k`; the identifiers are strictly increasing and pairwise
distinct. -/
theorem lv_event_register_id_increasing (g : lv_global_t) (k : Nat)
    (hk : g.event_last_register_id + k < 2 ^ 32) :
    (lv_event_register_ids k g).1 = List.range' (g.event_last_register_id + 1) k ∧
      (lv_event_register_ids k g).2.event_last_register_id =
        g.event_last_register_id + k ∧
      (0 < k → (lv_event_register_id g).1 = g.event_last_register_id + 1 ∧
        (lv_event_register_id g).2.event_last_register_id =
          g.event_last_register_id + 1) ∧
      (lv_event_register_ids k g).1.Pairwise (fun a b => a < b) ∧
      (lv_event_register_ids k g).1.Nodup := by
  obtain ⟨h1, h2⟩ := lv_event_register_ids_spec k g hk
  refine ⟨h1, h2, ?_, ?_, ?_⟩
  · intro hpos
    have hmod : (g.event_last_register_id + 1) % 2 ^ 32 = g.event_last_register_id + 1 :=
      Nat.mod_eq_of_lt (by omega)
    constructor <;> simp only [lv_event_register_id, hmod]
  · rw [h1]
    exact List.pairwise_lt_range' _ _
  · rw [h1]
    exact List.nodup_range' _ _

/-- Witness for C14: three calls from the counter 100. -/
theorem lv_event_register_id_increasing_witness :
    (lv_event_register_ids 3 lv_sample_global).1 =
        List.range' (lv_sample_global.event_last_register_id + 1) 3 ∧
      (lv_event_register_ids 3 lv_sample_global).2.event_last_register_id =
        lv_sample_global.event_last_register_id + 3 ∧
      (0 < 3 → (lv_event_register_id lv_sample_global).1 =
          lv_sample_global.event_last_register_id + 1 ∧
        (lv_event_register_id lv_sample_global).2.event_last_register_id =
          lv_sample_global.event_last_register_id + 1) ∧
      (lv_event_register_ids 3 lv_sample_global).1.Pairwise (fun a b => a < b) ∧
      (lv_event_register_ids 3 lv_sample_global).1.Nodup :=
  lv_event_register_id_increasing lv_sample_global 3 (by decide)

/-- C15. Absent registry: `lv_event_send(NULL, e, preprocess)` returns
`LV_RESULT_OK`, invokes no callback and returns the event record as it was, for
every event, phase and callback environment.  The dispatch stack is not among
the things `lv_event_send` reads or writes, and no callback runs that could
reach it. -/
theorem lv_event_send_absent_registry (ALL PREPROCESS : Nat) (cbs : Nat → lv_event_cb_t)
    (e : lv_event_t) (preprocess : Bool) :
    lv_event_send ALL PREPROCESS cbs none e preprocess =
      some { res := LV_RESULT_OK, list := none, e := e, calls := [] } :=
  rfl

/-- C16, the code at the failing input. A pass entered with TRAVERSING clear
whose first callback reports the target of the event deleted returns
`LV_RESULT_INVALID` from inside the loop and leaves TRAVERSING set; a later,
independent pass on the same registry with HAS_REMOVED set finds TRAVERSING set
and does not compact.  The first pair is the result and the TRAVERSING flag the
first pass leaves; the second the result of the later pass and the count it
leaves, with idle callbacks, after the first entry has been removed. -/
theorem lv_event_send_traversing_stuck :
    ((lv_event_send 0 0x8000 lv_sample_deleter (some lv_sample_pair) lv_sample_event
        false).map
      (fun o => (o.res, o.list.map (fun l => l.flags.traversing))) =
      some (LV_RESULT_INVALID, some true)) ∧
    ((lv_event_send 0 0x8000 lv_sample_idle
        (some ⟨[⟨none, 0, 10⟩, ⟨some 2, 0, 20⟩], ⟨true, true, false⟩⟩) lv_sample_event
        false).map
      (fun o => (o.res, o.list.map lv_event_get_count)) =
      some (LV_RESULT_OK, some 2)) := by
  decide

/-- C17, the code at the failing input. The second of two listeners calls
`lv_event_remove_all`; the pass is entered with TRAVERSING clear, returns
`LV_RESULT_OK` through the ALL_REMOVED branch, and leaves HAS_REMOVED and
ALL_REMOVED set on the emptied registry. -/
theorem lv_event_send_removed_flag_left :
    (lv_event_send 0 0x8000 lv_sample_clearer (some lv_sample_pair) lv_sample_event
        false).map (fun o => (o.res, o.list)) =
      some (LV_RESULT_OK, some ⟨[], ⟨false, true, true⟩⟩) := by
  decide

/-- C18. A nested pass never compacts: a pass entered with TRAVERSING set, with
callbacks that do not modify the registry, returns and leaves the registry,
entries and flags, exactly as at entry, whatever HAS_REMOVED and ALL_REMOVED
are and whichever result it returns. -/
theorem lv_event_send_nested_keeps (ALL PREPROCESS : Nat) (cbs : Nat → lv_event_cb_t)
    (list : lv_event_list_t) (e : lv_event_t) (preprocess : Bool)
    (ht : lv_event_has_flag list LV_EVENT_FLAG_TRAVERSING = true)
    (hcb : ∀ d ∈ list.array, ∀ f, d.cb = some f → lv_cb_keeps_registry (cbs f)) :
    ∃ out, lv_event_send ALL PREPROCESS cbs (some list) e preprocess = some out ∧
      out.list = some list := by
  simp only [lv_event_has_flag, LV_EVENT_FLAG_TRAVERSING, Bool.and_true, Bool.and_false,
    Bool.or_false] at ht
  obtain ⟨r, hloop, hlist⟩ := lv_event_send_loop_keeps_all ALL PREPROCESS cbs preprocess
    { list := lv_event_add_flag list LV_EVENT_FLAG_TRAVERSING, e := e } hcb
  obtain ⟨ab, w, calls⟩ := r
  dsimp only at hlist
  rw [lv_event_add_flag_traversing list ht] at hlist
  rw [lv_event_send_some]
  cases ab with
  | true =>
    exact ⟨_, lv_event_send_body_abort _ _ _ _ _ _ _ _ hloop, by rw [hlist]⟩
  | false =>
    exact ⟨_, lv_event_send_body_nested _ _ _ _ _ _ _ _ hloop ht, by rw [hlist]⟩

/-- Witness for C18: a nested pass over a registry with tombstones, HAS_REMOVED
and ALL_REMOVED set. -/
theorem lv_event_send_nested_keeps_witness :
    ∃ out, lv_event_send 0 0x8000 lv_sample_idle
        (some ⟨lv_sample_holes.array, ⟨true, true, true⟩⟩) lv_sample_event false = some out ∧
      out.list = some ⟨lv_sample_holes.array, ⟨true, true, true⟩⟩ :=
  lv_event_send_nested_keeps 0 0x8000 lv_sample_idle ⟨lv_sample_holes.array, ⟨true, true, true⟩⟩
    lv_sample_event false (by decide) (fun _ _ _ _ w => ⟨w, rfl, rfl⟩)

/-- C19, the code at the failing input. On an empty registry, `lv_event_add(cb1)`,
`lv_event_remove_all` and `lv_event_add(cb2)` leave the tombstone of `cb1`, the
listener `cb2`, and ALL_REMOVED set; the next outermost pass, with idle
callbacks, invokes `cb2` and then releases the whole array: the count is 0 and
`cb2` is no longer registered. -/
theorem lv_event_send_drops_added_listener :
    lv_sample_readded =
        some ⟨[⟨none, 0, 10⟩, ⟨some 2, 0, 20⟩], ⟨false, true, true⟩⟩ ∧
      (lv_event_send 0 0x8000 lv_sample_idle lv_sample_readded lv_sample_event false).map
        (fun o => (o.res, o.calls.map lv_event_call_t.key, o.list.map lv_event_get_count)) =
        some (LV_RESULT_OK, [(1, 2, 20)], some 0) := by
  decide

/-- C20, counterexample. On an idle stack, `_lv_event_push(e)`,
`_lv_event_push(e)`, `_lv_event_pop(e)`, `_lv_event_pop(e)` with the same record
`e` at address 5, a properly nested sequence of paired calls: the second push
writes `e->prev = e`, both pops set the head to `e->prev`, and the head is `e`
at the end, not `NULL`. -/
theorem lv_event_stack_lifo_counterexample :
    ((lv_event_nest.scope 5 (.scope 5 .done .done) .done).run lv_sample_idle_stack).map
        (fun g => (g.event_header, (g.events 5).prev)) =
      some (some 5, some 5) ∧
    lv_sample_idle_stack.event_header = none := by
  decide

/-- C20, amended. The dispatch stack is LIFO: `_lv_event_push(e)` makes `e` the
head with `e->prev` the old head, and `_lv_event_pop(e)` right after restores
the head; and every properly nested sequence of paired calls in which no record
is pushed again between its own push and its pop runs to its end and returns the
head to its initial value, so that an empty stack is empty again. -/
theorem lv_event_stack_lifo (g : lv_global_t) (p : Nat) (nest : lv_event_nest)
    (hfresh : nest.fresh) :
    (∃ g1 g2, _lv_event_push g (some p) = some g1 ∧ g1.event_header = some p ∧
        (g1.events p).prev = g.event_header ∧
        _lv_event_pop g1 (some p) = some g2 ∧ g2.event_header = g.event_header) ∧
      (∃ g3, nest.run g = some g3 ∧ g3.event_header = g.event_header ∧
        (g.event_header = none → g3.event_header = none)) := by
  constructor
  · refine ⟨_, _, rfl, rfl, ?_, rfl, ?_⟩
    · simp
    · simp
  · obtain ⟨g3, h1, h2, -⟩ := lv_event_nest_run_spec nest g hfresh
    exact ⟨g3, h1, h2, fun h => by rw [h2, h]⟩

/-- Witness for C20, amended: a dispatch with two nested dispatches one after the other,
the second with a nested one of its own. -/
theorem lv_event_stack_lifo_witness :
    (∃ g1 g2, _lv_event_push lv_sample_global (some 9) = some g1 ∧
        g1.event_header = some 9 ∧
        (g1.events 9).prev = lv_sample_global.event_header ∧
        _lv_event_pop g1 (some 9) = some g2 ∧
        g2.event_header = lv_sample_global.event_header) ∧
      (∃ g3, (lv_event_nest.scope 5 (.scope 6 .done (.scope 6 (.scope 7 .done .done) .done))
          .done).run lv_sample_global = some g3 ∧
        g3.event_header = lv_sample_global.event_header ∧
        (lv_sample_global.event_header = none → g3.event_header = none)) :=
  lv_event_stack_lifo lv_sample_global 9
    (.scope 5 (.scope 6 .done (.scope 6 (.scope 7 .done .done) .done)) .done)
    (by simp [lv_event_nest.fresh, lv_event_nest.pushed])

end LvEvent
